import Mathlib

/-!
Shallow embedding of the schema-inference / storage-routing / query-translation
core of the Dynamic-ETL-pipeline repository, together with proofs of the
spec claims about it.

Python values are modelled by the inductive `PyVal`; Python dicts are modelled
as association lists in insertion order (Python 3.7+ dicts preserve insertion
order and have unique keys); Python floats and float arithmetic are modelled
over `ℚ` (the quantities involved are ratios of small integers).
-/

/-- Model of a Python value as handled by the pipeline.  Python `tuple` values
are classified exactly like lists by the code, so both are modelled by the
`list` constructor; `other` stands for any object that is none of the
recognised scalar/container types. -/
inductive PyVal where
  | none
  | bool (b : Bool)
  | int (n : Int)
  | float (q : ℚ)
  | str (s : String)
  | dict (entries : List (String × PyVal))
  | list (items : List PyVal)
  | other (tag : String)

/-- `value is None` test used throughout the Python source. -/
def PyVal.isNone : PyVal → Bool
  | .none => true
  | _ => false

/-- `isinstance(value, dict)` test. -/
def PyVal.isDict : PyVal → Bool
  | .dict _ => true
  | _ => false

/-- A Python record / document: a dict from field name to value. -/
abbrev PyDict := List (String × PyVal)

/-! ## inference/type_mapper.py -/

/-- `infer_type` from `src/inference/type_mapper.py`: maps a Python value to a
JSON-schema-like type tag.  The Python code tests `bool` before `int` because
`bool` is a subclass of `int`; in the embedding the two are distinct
constructors, so the test order is reflected by the separate match arms. -/
def infer_type : PyVal → String
  | .none => "null"
  | .bool _ => "boolean"
  | .int _ => "integer"
  | .float _ => "number"
  | .str _ => "string"
  | .dict _ => "object"
  | .list _ => "array"
  | .other _ => "unknown"

/-- Worker for `dedupKeys`: drop every element already in `seen` or seen
earlier in the list. -/
def dedupKeysAux (seen : List String) : List String → List String
  | [] => []
  | x :: xs => if x ∈ seen then dedupKeysAux seen xs else x :: dedupKeysAux (x :: seen) xs

/-- The distinct elements of a list in first-occurrence order — the key
order of a Python dict built by repeated insertion. -/
def dedupKeys : List String → List String := dedupKeysAux []

/-- The `type_counts` dict built by `merge_types`: keys in first-occurrence
order, each mapped to its number of occurrences in the input list. -/
def typeCounts (types : List String) : List (String × Nat) :=
  (dedupKeys types).map (fun t => (t, types.count t))

/-- The integer/number promotion step of `merge_types`: when both `"integer"`
and `"number"` are present, the `"integer"` entry is deleted and the
`"number"` entry receives the combined count (keeping its dict position). -/
def promoteIntegerNumber (tc : List (String × Nat)) : List (String × Nat) :=
  match tc.lookup "integer", tc.lookup "number" with
  | some ci, some cn =>
      (tc.filter (fun p => p.1 ≠ "integer")).map
        (fun p => if p.1 = "number" then (p.1, ci + cn) else p)
  | _, _ => tc

/-- Strictly-better comparison corresponding to the Python sort key
`(-count, name)` of `merge_types`: `q` beats `p` iff `q` has a larger count,
or an equal count and an alphabetically smaller name. -/
def betterType (p q : String × Nat) : Bool :=
  decide (p.2 < q.2) || (decide (p.2 = q.2) && decide (q.1 < p.1))

/-- `sorted(type_counts.items(), key=lambda x: (-x[1], x[0]))[0][0]`: the entry
minimising `(-count, name)`, i.e. the most frequent type with alphabetical
tie-break.  Computed as a fold keeping the best entry seen so far (for the
distinct keys of a dict this equals the first element of the sorted list). -/
def dominantOf : List (String × Nat) → String
  | [] => "unknown"
  | p :: rest => (rest.foldl (fun acc q => if betterType acc q then q else acc) p).1

/-- `merge_types` from `src/inference/type_mapper.py`. -/
def merge_types (types : List String) : String × List String :=
  if types = [] then ("unknown", [])
  else
    let tc := promoteIntegerNumber (typeCounts types)
    (dominantOf tc, (tc.map Prod.fst).mergeSort (fun a b => decide (a ≤ b)))

/-! ## inference/confidence_scorer.py -/

/-- Python `round(x, 3)` modelled over `ℚ`. -/
def roundTo3 (q : ℚ) : ℚ := (round (q * 1000) : ℤ) / 1000

/-- `max(type_counts.values())` (with 0 for the empty dict, which the Python
code never reaches because of its emptiness guard). -/
def maxCount (tc : List (String × Nat)) : Nat :=
  (tc.map Prod.snd).foldl max 0

/-- `compute_confidence` from `src/inference/confidence_scorer.py`:
dominant-type count over total observations, rounded to 3 decimals; 0 when
there are no observations or no recorded types. -/
def compute_confidence (type_counts : List (String × Nat)) (total : Nat) : ℚ :=
  if total = 0 then 0
  else if type_counts = [] then 0
  else roundTo3 ((maxCount type_counts : ℚ) / (total : ℚ))

/-! ## inference/schema_detector.py and inference/schema_generator.py -/

/-- Key list of a batch of records in first-appearance order, mirroring the
iteration order of the Python accumulation dicts. -/
def fieldOrder (records : List PyDict) : List String :=
  dedupKeys (records.flatMap (fun r => r.map Prod.fst))

/-- The values a given field takes across a batch, in record order (each
record is a dict and contributes at most one value for the field). -/
def fieldValues (records : List PyDict) (fieldName : String) : List PyVal :=
  records.filterMap (fun r => r.lookup fieldName)

/-- `detect_data_types` from `src/inference/schema_detector.py`: per-field
list of inferred types folded through `merge_types` to a dominant type. -/
def detect_data_types (records : List PyDict) : List (String × String) :=
  if records.isEmpty then []
  else (fieldOrder records).map
    (fun fieldName =>
      (fieldName, (merge_types ((fieldValues records fieldName).map infer_type)).1))

/-- `count_field_occurrences` from `src/inference/confidence_scorer.py`:
number of records containing the field. -/
def count_field_occurrences (records : List PyDict) (fieldName : String) : Nat :=
  (records.filter (fun r => (r.lookup fieldName).isSome)).length

/-- `check_type_consistency` from `src/inference/confidence_scorer.py`:
fraction of the occurrences of a field whose inferred type matches the
expected type, rounded to 3 decimals. -/
def check_type_consistency
    (records : List PyDict) (fieldName expectedType : String) : ℚ :=
  if records.isEmpty then 0
  else
    let vals := fieldValues records fieldName
    let matching := (vals.filter (fun v => infer_type v = expectedType)).length
    if vals.length = 0 then 0
    else roundTo3 ((matching : ℚ) / (vals.length : ℚ))

/-- `calculate_field_confidence` from `src/inference/confidence_scorer.py`. -/
def calculate_field_confidence
    (records : List PyDict) (fieldName detectedType : String) : ℚ :=
  if records.isEmpty then 0
  else if count_field_occurrences records fieldName = 0 then 0
  else check_type_consistency records fieldName detectedType

/-- A schema field as built by `src/inference/schema_generator.py`
(`core.models.SchemaField` restricted to the attributes the claims are
about). -/
structure SchemaField where
  name : String
  type : String
  nullable : Bool
  example_value : Option PyVal
  confidence : ℚ

/-- First value of the field that is present and not `None`, mirroring the
example-extraction loop of `build_schema_fields`. -/
def firstNonNullValue (records : List PyDict) (fieldName : String) : Option PyVal :=
  ((fieldValues records fieldName).filter (fun v => ¬ v.isNone)).head?

/-- `build_schema_fields` from `src/inference/schema_generator.py`. -/
def build_schema_fields
    (records : List PyDict)
    (fieldTypes : List (String × String))
    (fieldConfidences : List (String × ℚ)) : List SchemaField :=
  fieldTypes.map (fun ft =>
    { name := ft.1
      type := ft.2
      nullable := decide (count_field_occurrences records ft.1 < records.length)
      example_value := firstNonNullValue records ft.1
      confidence := (fieldConfidences.lookup ft.1).getD (1/2) })

/-- The field-list part of `generate_schema` from
`src/inference/schema_generator.py`: detect the types, score each field with
`calculate_field_confidence`, and assemble the `SchemaField` list (the
remaining parts of `generate_schema` — schema id, timestamps, aggregate
stats, genson schema — are not field-level data). -/
def generate_schema_fields (records : List PyDict) : List SchemaField :=
  let fieldTypes := detect_data_types records
  let fieldConfidences :=
    fieldTypes.map (fun ft => (ft.1, calculate_field_confidence records ft.1 ft.2))
  build_schema_fields records fieldTypes fieldConfidences

/-! ## storage/storage_router.py -/

/-- A normalized record as seen by the storage router: the declared
source-type tag plus the data payload (`core.models.NormalizedRecord`
restricted to the attributes the router reads). -/
structure NormalizedRecord where
  source_type : String
  data : PyDict

/-- `_is_flat_structure` from `src/storage/storage_router.py`: no dict value,
and no non-empty list value whose first element is a dict. -/
def is_flat_structure (data : PyDict) : Bool :=
  data.all (fun kv =>
    match kv.2 with
    | .dict _ => false
    | .list items =>
        match items with
        | [] => true
        | v :: _ => !v.isDict
    | _ => true)

/-- The loop body of `categorize_records_by_storage`: append the record to
the mongodb or the sqlite side according to its source type, falling back to
the data-shape test for unrecognized tags. -/
def routeStep (acc : List NormalizedRecord × List NormalizedRecord)
    (record : NormalizedRecord) : List NormalizedRecord × List NormalizedRecord :=
  if record.source_type ∈ ["json", "yaml_block"] then
    (acc.1 ++ [record], acc.2)
  else if record.source_type ∈ ["html_table", "csv_block", "kv"] then
    (acc.1, acc.2 ++ [record])
  else if is_flat_structure record.data then
    (acc.1, acc.2 ++ [record])
  else
    (acc.1 ++ [record], acc.2)

/-- `categorize_records_by_storage` from `src/storage/storage_router.py`:
returns the (mongodb, sqlite) partition of the records, in order. -/
def categorize_records_by_storage
    (records : List NormalizedRecord) : List NormalizedRecord × List NormalizedRecord :=
  records.foldl routeStep ([], [])

/-! ## services/schema_grouping_service.py -/

/-- `FIELD_SIMILARITY_THRESHOLD` (0.7). -/
def FIELD_SIMILARITY_THRESHOLD : ℚ := 7/10

/-- `NER_SIMILARITY_THRESHOLD` (0.5). -/
def NER_SIMILARITY_THRESHOLD : ℚ := 1/2

/-- `_jaccard` from `src/services/schema_grouping_service.py` (the Python
locals `intersection` and `union` are inlined). -/
def jaccard (left right : Finset String) : ℚ :=
  if left = ∅ ∧ right = ∅ then 1
  else if left = ∅ ∨ right = ∅ then 0
  else if left ∪ right = ∅ then 0
  else ((left ∩ right).card : ℚ) / ((left ∪ right).card : ℚ)

/-- Python `key.startswith("_")`: the key begins with an underscore
(expressed on the character list, where it evaluates by reduction). -/
def startsWithUnderscore (key : String) : Bool :=
  match key.data with
  | [] => false
  | c :: _ => c = '_'

/-- A column survives `_EXCLUDED_COLUMNS` and the underscore filter of
`_extract_field_names` / `_infer_schema_fields`. -/
def allowedColumn (key : String) : Bool :=
  key != "ner" && !(startsWithUnderscore key)

/-- `_extract_field_names` from `src/services/schema_grouping_service.py`. -/
def extract_field_names (doc : PyDict) : Finset String :=
  ((doc.map Prod.fst).filter allowedColumn).toFinset

/-- The per-label filter of `_extract_ner_labels`: a label whose payload is an
empty list is skipped. -/
def keepNerLabel : PyVal → Bool
  | .list [] => false
  | _ => true

/-- `_extract_ner_labels` from `src/services/schema_grouping_service.py`
(in the embedding dict keys are always strings, so the
`isinstance(label, str)` guard is always true). -/
def extract_ner_labels (doc : PyDict) : Finset String :=
  match doc.lookup "ner" with
  | some (.dict entries) => ((entries.filter (fun p => keepNerLabel p.2)).map Prod.fst).toFinset
  | _ => ∅

/-- `_GroupingBucket` from `src/services/schema_grouping_service.py`. -/
structure GroupingBucket where
  bucket_id : String
  documents : List PyDict
  field_names : Finset String
  ner_labels : Finset String

/-- `_GroupingBucket.is_compatible`. -/
def GroupingBucket.is_compatible
    (b : GroupingBucket) (fields nerLabels : Finset String) : Bool :=
  decide (FIELD_SIMILARITY_THRESHOLD ≤ jaccard b.field_names fields) &&
    decide (NER_SIMILARITY_THRESHOLD ≤ jaccard b.ner_labels nerLabels)

/-- `_GroupingBucket.add_document`. -/
def GroupingBucket.add_document
    (b : GroupingBucket) (doc : PyDict) (fields nerLabels : Finset String) :
    GroupingBucket :=
  { b with
    documents := b.documents ++ [doc]
    field_names := b.field_names ∪ fields
    ner_labels := b.ner_labels ∪ nerLabels }

/-- `f"grp_\x7blen(buckets) + 1:02d\x7d"`: two-digit zero-padded bucket id. -/
def bucketId (n : Nat) : String :=
  "grp_" ++ (if n < 10 then "0" ++ toString n else toString n)

/-- The inner `for bucket in buckets` loop of `group_tabular_documents`:
give the document to the first compatible bucket, returning `none` when no
bucket accepts it. -/
def insertIntoFirstBucket
    (buckets : List GroupingBucket) (doc : PyDict)
    (fields nerLabels : Finset String) : Option (List GroupingBucket) :=
  match buckets with
  | [] => Option.none
  | b :: rest =>
      if b.is_compatible fields nerLabels then
        some (b.add_document doc fields nerLabels :: rest)
      else
        (insertIntoFirstBucket rest doc fields nerLabels).map (fun bs => b :: bs)

/-- One iteration of the document loop of `group_tabular_documents`: assign
the document to the first compatible bucket, or open a new bucket. -/
def stepDoc (buckets : List GroupingBucket) (doc : PyDict) : List GroupingBucket :=
  let fields := extract_field_names doc
  let nerLabels := extract_ner_labels doc
  match insertIntoFirstBucket buckets doc fields nerLabels with
  | some bs => bs
  | Option.none =>
      buckets ++
        [GroupingBucket.add_document
          ⟨bucketId (buckets.length + 1), [], ∅, ∅⟩ doc fields nerLabels]

/-- The bucket list produced by the clustering loop of
`group_tabular_documents`. -/
def clusterBuckets (documents : List PyDict) : List GroupingBucket :=
  documents.foldl stepDoc []

/-- Per-field accumulator of `_infer_schema_fields` (the `field_info`
dict values). -/
structure FieldInfo where
  ex : Option PyVal
  types : Finset String
  count : Nat
  sawNull : Bool

/-- `_map_python_type` from `src/services/schema_grouping_service.py`.
(A Python `tuple` would fall through to `"string"`; the embedding folds
tuples into `PyVal.list`, mapping them to `"array"` — no tabular document
carries tuples after normalization.) -/
def map_python_type : PyVal → String
  | .none => "string"
  | .bool _ => "boolean"
  | .int _ => "integer"
  | .float _ => "number"
  | .dict _ => "object"
  | .list _ => "array"
  | _ => "string"

/-- One `field_info` update of `_infer_schema_fields` for a value: bump the
count, record a null sighting, keep the first non-null example, and add the
mapped type to the type set. -/
def updateFieldInfo (info : FieldInfo) (v : PyVal) : FieldInfo :=
  { ex := if v.isNone then info.ex else if info.ex.isNone then some v else info.ex
    types := insert (map_python_type v) info.types
    count := info.count + 1
    sawNull := info.sawNull || v.isNone }

/-- `field_info.setdefault(key, ...)` followed by the update: existing keys
are updated in place, new keys are appended (dict insertion order). -/
def recordEntry (fi : List (String × FieldInfo)) (key : String) (v : PyVal) :
    List (String × FieldInfo) :=
  if allowedColumn key then
    match fi.lookup key with
    | some _ => fi.map (fun p => if p.1 = key then (p.1, updateFieldInfo p.2 v) else p)
    | Option.none => fi ++ [(key, updateFieldInfo ⟨Option.none, ∅, 0, false⟩ v)]
  else fi

/-- The `field_info` accumulation loop of `_infer_schema_fields`. -/
def fieldInfoOf (documents : List PyDict) : List (String × FieldInfo) :=
  documents.foldl (fun acc doc => doc.foldl (fun a kv => recordEntry a kv.1 kv.2) acc) []

/-- `_select_type` from `src/services/schema_grouping_service.py`: first hit
in the priority order integer, number, boolean, object, array, string. -/
def select_type (types : Finset String) : String :=
  if "integer" ∈ types then "integer"
  else if "number" ∈ types then "number"
  else if "boolean" ∈ types then "boolean"
  else if "object" ∈ types then "object"
  else if "array" ∈ types then "array"
  else "string"

/-- `_infer_schema_fields` from `src/services/schema_grouping_service.py`
(`SchemaField.confidence` defaults to 1.0 in `core.models`). -/
def infer_schema_fields (documents : List PyDict) : List SchemaField :=
  let total := documents.length
  let fields := (fieldInfoOf documents).map (fun p =>
    { name := p.1
      type := select_type p.2.types
      nullable := p.2.sawNull || decide (p.2.count < total)
      example_value := p.2.ex
      confidence := 1 : SchemaField })
  fields.mergeSort (fun a b => decide (a.name ≤ b.name))

/-- `_build_signature` from `src/services/schema_grouping_service.py`.  The
code feeds the names and types of the name-sorted fields, then the sorted
entity labels, into a SHA-1 hasher; the hash itself is modelled injectively
by its input token stream. -/
def build_signature (fields : List SchemaField) (nerLabels : Finset String) :
    List String :=
  ((fields.mergeSort (fun a b => decide (a.name ≤ b.name))).flatMap
      (fun f => [f.name, f.type])) ++
    nerLabels.sort (· ≤ ·)

/-- A table plan produced by `group_tabular_documents`
(`TabularSchemaGroup` + documents; the table name, which embeds the first 8
hex characters of the SHA-1 digest, is not modelled because the digest is
modelled by its input stream). -/
structure TabularGroupPlan where
  group_id : String
  signature : List String
  fields : List SchemaField
  record_count : Nat
  ner_labels : List String
  documents : List PyDict

/-- `group_tabular_documents` from `src/services/schema_grouping_service.py`. -/
def group_tabular_documents (documents : List PyDict) : List TabularGroupPlan :=
  if documents.isEmpty then []
  else
    (clusterBuckets documents).map (fun bucket =>
      let schemaFields := infer_schema_fields bucket.documents
      { group_id := bucket.bucket_id
        signature := build_signature schemaFields bucket.ner_labels
        fields := schemaFields
        record_count := bucket.documents.length
        ner_labels := bucket.ner_labels.sort (· ≤ ·)
        documents := bucket.documents })

/-! ## services/orchestrator.py and services/pipeline_service.py -/

/-- Modelled from the spec: the structural Genson schema produced by
`inference/genson_integration.py`, a module imported by
`src/services/orchestrator.py` but not present under `src/`.  Per the spec,
what matters for duplicate detection is the schema's property names and
types, so the Genson schema is modelled as the list of its property
(name, type) pairs. -/
abbrev GensonSchema := List (String × String)

/-- The slice of `core.models.SchemaMetadata` that duplicate detection and
version assignment read. -/
structure SchemaMeta where
  version : Nat
  genson_schema : Option GensonSchema

/-- Modelled from the spec: `compute_schema_signature` from the absent
`inference/genson_integration.py`.  The spec describes it as a hash of the
schema's sorted property names+types; the hash is modelled injectively as the
sorted property list itself. -/
def compute_schema_signature (g : GensonSchema) : List (String × String) :=
  g.mergeSort (fun a b => decide (a.1 < b.1) || (decide (a.1 = b.1) && decide (a.2 ≤ b.2)))

/-- `handle_duplicate_upload` from `src/services/orchestrator.py`, with the
stored schema supplied by the caller (as `process_upload` does): an upload is
a duplicate iff both schemas carry a truthy Genson schema and the two
signatures coincide.  Python's `not new_schema.genson_schema` is true both
for `None` and for an empty schema, hence the emptiness test. -/
def handle_duplicate_upload (newSchema existingSchema : SchemaMeta) : Bool :=
  match newSchema.genson_schema, existingSchema.genson_schema with
  | some gNew, some gOld =>
      if gNew.isEmpty || gOld.isEmpty then false
      else decide (compute_schema_signature gOld = compute_schema_signature gNew)
  | _, _ => false

/-- The version-assignment step of `process_upload` from
`src/services/pipeline_service.py` (lines 159-165): version 1 for a new
source; for an existing source, the stored version when the upload is a
duplicate and the stored version plus one otherwise.  Returns the assigned
version together with the duplicate flag. -/
def assign_upload_version
    (existingSchema : Option SchemaMeta) (newSchema : SchemaMeta) : Nat × Bool :=
  match existingSchema with
  | Option.none => (1, false)
  | some ex =>
      let dup := handle_duplicate_upload newSchema ex
      (if dup then ex.version else ex.version + 1, dup)

/-! ## services/query_service.py (SQLite path) -/

/-- The Python `for`-loop pattern of the clause builders: process the items
in order, raising (returning the first error) as soon as one item fails. -/
def exceptMap {α β : Type} (g : α → Except String β) : List α → Except String (List β)
  | [] => Except.ok []
  | x :: xs => do
      let y ← g x
      let ys ← exceptMap g xs
      Except.ok (y :: ys)

/-- `SQLITE_SUPPORTED_OPERATORS`. -/
def SQLITE_SUPPORTED_OPERATORS : List String :=
  ["$eq", "$ne", "$gt", "$gte", "$lt", "$lte", "$in", "$like"]

/-- The `operator_map` of `_render_operator`. -/
def sqlComparisonOf (operator : String) : Option String :=
  [("$eq", "="), ("$ne", "!="), ("$gt", ">"), ("$gte", ">="),
    ("$lt", "<"), ("$lte", "<=")].lookup operator

/-- `_render_operator` from `src/services/query_service.py`: produce the SQL
fragment (placeholders only) and the parameter list for one operator. -/
def render_operator (column operator : String) (value : PyVal) :
    Except String (String × List PyVal) :=
  if operator = "$in" then
    match value with
    | .list vs =>
        if vs.isEmpty then Except.error "in requires a non-empty list of values"
        else
          Except.ok
            (column ++ " IN (" ++ String.intercalate ", " (vs.map (fun _ => "?")) ++ ")", vs)
    | _ => Except.error "in requires a non-empty list of values"
  else if operator = "$like" then
    match value with
    | .str _ => Except.ok (column ++ " LIKE ?", [value])
    | _ => Except.error "like value must be a string"
  else
    match sqlComparisonOf operator with
    | some sqlOperator => Except.ok (column ++ " " ++ sqlOperator ++ " ?", [value])
    | Option.none => Except.error "Unsupported operator for SQLite queries"

/-- One iteration of the operator loop of `_render_condition`: the operator
must be in the supported set, then it is rendered. -/
def whereOperatorEntry (column : String) (p : String × PyVal) :
    Except String (String × List PyVal) :=
  if p.1 ∈ SQLITE_SUPPORTED_OPERATORS then render_operator column p.1 p.2
  else Except.error "Unsupported operator for SQLite queries"

/-- `_render_condition` from `src/services/query_service.py`: operator dicts
must be non-empty and each operator supported; a bare value becomes a
parameterized equality. -/
def render_condition (column : String) (value : PyVal) :
    Except String (String × List PyVal) :=
  match value with
  | .dict entries =>
      if entries.isEmpty then Except.error "Operator dict cannot be empty"
      else do
        let rendered ← exceptMap (whereOperatorEntry column) entries
        let combined := String.intercalate " AND " (rendered.map Prod.fst)
        Except.ok
          (if rendered.length > 1 then "(" ++ combined ++ ")" else combined,
            rendered.flatMap Prod.snd)
  | _ => Except.ok (column ++ " = ?", [value])

/-- One iteration of the `for column, value in where_clause.items()` loop of
`_build_where_clause`: validate the column, then render the condition. -/
def whereColumnEntry (allowedColumns : List String) (p : String × PyVal) :
    Except String (String × List PyVal) :=
  if p.1 ∈ allowedColumns then render_condition p.1 p.2
  else Except.error "Column is not available in SQLite table"

/-- `_build_where_clause` from `src/services/query_service.py`. -/
def build_where_clause (whereClause : Option PyDict) (allowedColumns : List String) :
    Except String (String × List PyVal) :=
  match whereClause with
  | Option.none => Except.ok ("", [])
  | some entries =>
      if entries.isEmpty then Except.ok ("", [])
      else do
        let rendered ← exceptMap (whereColumnEntry allowedColumns) entries
        Except.ok
          (String.intercalate " AND " (rendered.map Prod.fst),
            rendered.flatMap Prod.snd)

/-- One iteration of the `for field in select_fields` loop of
`_build_select_clause`: the entry must be a string naming a known column. -/
def selectEntry (allowedColumns : List String) (f : PyVal) : Except String String :=
  match f with
  | PyVal.str s =>
      if s ∈ allowedColumns then Except.ok s
      else Except.error "Column is not available in SQLite table"
  | _ => Except.error "select entries must be strings"

/-- `_build_select_clause` from `src/services/query_service.py`. -/
def build_select_clause (selectFields : Option (List PyVal)) (allowedColumns : List String) :
    Except String String :=
  match selectFields with
  | Option.none => Except.ok "*"
  | some sel =>
      if sel.isEmpty then Except.error "select must be a non-empty list of column names"
      else do
        let normalized ← exceptMap (selectEntry allowedColumns) sel
        Except.ok (String.intercalate ", " normalized)

/-- The entry dissection of `_build_order_by_clause`: a one-entry dict or a
two-element list gives (column, direction); anything else is rejected. -/
def parseOrderEntry : PyVal → Except String (PyVal × PyVal)
  | .dict [p] => Except.ok (.str p.1, p.2)
  | .list [c, d] => Except.ok (c, d)
  | _ => Except.error "Invalid order_by entry; expected field and direction"

/-- `str(direction).lower() in desc-set` of `_build_order_by_clause`,
defaulting to ASC (including for `None`). -/
def directionSql (direction : PyVal) : String :=
  match direction with
  | .none => "ASC"
  | .str s => if s.toLower ∈ ["desc", "-1", "descending"] then "DESC" else "ASC"
  | .int n => if n = -1 then "DESC" else "ASC"
  | _ => "ASC"

/-- One iteration of the entry loop of `_build_order_by_clause`: dissect the
entry, validate the column, and attach the SQL direction. -/
def orderEntry (allowedColumns : List String) (entry : PyVal) : Except String String := do
  let (col, dir) ← parseOrderEntry entry
  match col with
  | PyVal.str c =>
      if c ∈ allowedColumns then Except.ok (c ++ " " ++ directionSql dir)
      else Except.error "Column is not available in SQLite table"
  | _ => Except.error "Column is not available in SQLite table"

/-- `_build_order_by_clause` from `src/services/query_service.py`. -/
def build_order_by_clause (orderValue : Option (List PyVal)) (allowedColumns : List String) :
    Except String String :=
  match orderValue with
  | Option.none => Except.ok ""
  | some entries =>
      if entries.isEmpty then Except.ok ""
      else do
        let clauses ← exceptMap (orderEntry allowedColumns) entries
        Except.ok (String.intercalate ", " clauses)

/-- Python `int(value)` on a query value: ints pass through, booleans become
0/1, floats truncate toward zero, numeric strings parse, anything else is a
conversion failure. -/
def pyToInt : PyVal → Option Int
  | .int n => some n
  | .bool b => some (if b then 1 else 0)
  | .float q => some (if 0 ≤ q then q.floor else q.ceil)
  | .str s => s.toInt?
  | _ => Option.none

/-- `_normalize_limit` from `src/services/query_service.py`: clamp into
[1, 1000] (or [0, 1000] when zero is allowed). -/
def normalize_limit (value : PyVal) (allowZero : Bool) : Except String Int :=
  match pyToInt value with
  | Option.none => Except.error "Query limit must be an integer"
  | some n => Except.ok (max (if allowZero then 0 else 1) (min n 1000))

/-- The SQLite query payload consumed by `_execute_sqlite_query`. -/
structure SqliteQuery where
  select : Option (List PyVal)
  whereClause : Option PyDict
  order_by : Option (List PyVal)
  limit : Option PyVal

/-- The SQL-assembly part of `_execute_sqlite_query` from
`src/services/query_service.py`: build the select, where, order-by and limit
pieces, then assemble the statement and parameter list.  In the source,
`conn.execute(sql, params)` runs only after every builder has succeeded, so
an `Except.error` outcome here means no SQL statement is ever executed. -/
def build_sqlite_sql (query : SqliteQuery) (tableName : String) (columns : List String) :
    Except String (String × List PyVal) := do
  let selectClause ← build_select_clause query.select columns
  let wp ← build_where_clause query.whereClause columns
  let orderClause ← build_order_by_clause query.order_by columns
  let lim ← normalize_limit (query.limit.getD (PyVal.int 100)) false
  let sql := "SELECT " ++ selectClause ++ " FROM " ++ tableName
  let sql := if wp.1 = "" then sql else sql ++ " WHERE " ++ wp.1
  let sql := if orderClause = "" then sql else sql ++ " ORDER BY " ++ orderClause
  Except.ok (sql ++ " LIMIT ?", wp.2 ++ [PyVal.int lim])

/-! ## Definitions used to state the claims -/

/-- The flatness notion the spec states for the storage-router fallback:
no nested-object value and no list-of-objects value, a list of objects
being a non-empty list all of whose elements are objects.  This is the
claim's wording; the source's `_is_flat_structure` is `is_flat_structure`
above. -/
def specFlat (data : PyDict) : Bool :=
  data.all (fun kv =>
    match kv.2 with
    | .dict _ => false
    | .list items => items.isEmpty || items.any (fun v => !v.isDict)
    | _ => true)

/-- A record with an unrecognized source tag whose only value is a mixed
list starting with an object: flat per the spec's wording (the list is not a
list of objects) but nested per `_is_flat_structure` (its first element is a
dict). -/
def mixedListRecord : NormalizedRecord :=
  { source_type := "custom"
    data := [("x", PyVal.list [PyVal.dict [], PyVal.int 1])] }

/-- Which storage arm a record is routed to, read off the branch structure of
`categorize_records_by_storage` (`true` = SQLite). -/
def routesToSqlite (r : NormalizedRecord) : Bool :=
  if r.source_type ∈ ["json", "yaml_block"] then false
  else if r.source_type ∈ ["html_table", "csv_block", "kv"] then true
  else is_flat_structure r.data

/-- Union of the extracted field-name sets of a batch of documents. -/
def unionFieldsOfDocs (documents : List PyDict) : Finset String :=
  documents.foldr (fun d acc => extract_field_names d ∪ acc) ∅

/-- Union of the accumulated field-name sets of a bucket list. -/
def bucketFieldsUnion (buckets : List GroupingBucket) : Finset String :=
  buckets.foldr (fun b acc => b.field_names ∪ acc) ∅

/-- All (field, value) entries of a document batch in traversal order. -/
def allEntries (documents : List PyDict) : List (String × PyVal) :=
  documents.flatMap id

/-- The set of field names `_infer_schema_fields` collects for a batch
(entries surviving the column filter). -/
def docsKeySet (documents : List PyDict) : Finset String :=
  (((allEntries documents).filter (fun kv => allowedColumn kv.1)).map Prod.fst).toFinset

/-- The set of mapped Python types `_infer_schema_fields` accumulates for
one field of a batch. -/
def docsTypeSet (documents : List PyDict) (fieldName : String) : Finset String :=
  (((allEntries documents).filter
      (fun kv => allowedColumn kv.1 && kv.1 = fieldName)).map
    (fun kv => map_python_type kv.2)).toFinset

/-- The key list of a `field_info` association list. -/
def infoKeys (fi : List (String × FieldInfo)) : List String := fi.map Prod.fst

/-- The accumulated type set stored in a `field_info` association list at a
key (empty when the key is absent). -/
def typesAt (fi : List (String × FieldInfo)) (fieldName : String) : Finset String :=
  match fi.lookup fieldName with
  | some info => info.types
  | Option.none => ∅

/-- The type contribution of a flat entry list to one field. -/
def entryTypes (es : List (String × PyVal)) (fieldName : String) : Finset String :=
  ((es.filter (fun kv => allowedColumn kv.1 && kv.1 = fieldName)).map
    (fun kv => map_python_type kv.2)).toFinset

/-- The key contribution of a flat entry list. -/
def entryKeys (es : List (String × PyVal)) : Finset String :=
  ((es.filter (fun kv => allowedColumn kv.1)).map Prod.fst).toFinset

/-- The signature token stream determined by the canonical per-batch sets:
names in sorted order, each followed by its selected type, then the sorted
entity labels. -/
def canonicalSignature (documents : List PyDict) (nerLabels : Finset String) :
    List String :=
  (((docsKeySet documents).sort (· ≤ ·)).flatMap
      (fun n => [n, select_type (docsTypeSet documents n)])) ++
    nerLabels.sort (· ≤ ·)

/-- The schema-field list of `_infer_schema_fields` before its final sort
(`infer_schema_fields` is its `mergeSort` by name, definitionally). -/
def fieldsUnsorted (documents : List PyDict) : List SchemaField :=
  (fieldInfoOf documents).map (fun p =>
    { name := p.1
      type := select_type p.2.types
      nullable := p.2.sawNull || decide (p.2.count < documents.length)
      example_value := p.2.ex
      confidence := 1 })

/-! ## General helper lemmas -/

theorem perm_toFinset {l₁ l₂ : List String} (h : l₁.Perm l₂) :
    l₁.toFinset = l₂.toFinset := by
  ext a
  simp [List.mem_toFinset, h.mem_iff]

theorem two_le_length_of_two_mem {α : Type} {l : List α} {a b : α}
    (ha : a ∈ l) (hb : b ∈ l) (hab : a ≠ b) : 2 ≤ l.length := by
  match l, ha with
  | x :: xs, ha =>
    match xs, ha, hb with
    | [], ha, hb =>
        simp at ha hb
        exact absurd (ha.trans hb.symm) hab
    | y :: ys, _, _ => simp [List.length_cons]

/-! ## C4 -/

/-- C4: `infer_type` is total for every modelled Python value (it is a total
Lean function on `PyVal`, so it never raises), always returns one of the
eight canonical tags, and maps every boolean to `"boolean"`, never to
`"integer"`. -/
theorem infer_type_total_and_never_integer_for_bool :
    (∀ v : PyVal,
      infer_type v ∈
        ["null", "boolean", "integer", "number", "string", "object", "array", "unknown"]) ∧
    (∀ b : Bool,
      infer_type (PyVal.bool b) = "boolean" ∧ infer_type (PyVal.bool b) ≠ "integer") := by
  constructor
  · intro v
    cases v <;> simp [infer_type]
  · intro b
    refine ⟨rfl, by simp [infer_type]⟩

/-! ## C5 -/

/-- C5: `compute_confidence` returns the dominant-type count divided by the
total, rounded to 3 decimal places, whenever the total is non-zero (for an
empty histogram the dominant count is 0 and both sides are 0), and returns
0.0 when the total is 0; in particular `compute_confidence {} 0 = 0.0` and
`compute_confidence {integer: 8, string: 2} 10 = 0.8`. -/
theorem compute_confidence_spec :
    (∀ (tc : List (String × Nat)) (total : Nat), total ≠ 0 →
      compute_confidence tc total = roundTo3 ((maxCount tc : ℚ) / (total : ℚ))) ∧
    (∀ tc : List (String × Nat), compute_confidence tc 0 = 0) ∧
    compute_confidence [] 0 = 0 ∧
    compute_confidence [("integer", 8), ("string", 2)] 10 = 8/10 := by
  refine ⟨?_, ?_, ?_, ?_⟩
  · intro tc total h
    match tc with
    | [] => simp [compute_confidence, h, maxCount, roundTo3]
    | p :: rest => simp [compute_confidence, h]
  · intro tc
    simp [compute_confidence]
  · simp [compute_confidence]
  · norm_num [compute_confidence, maxCount, roundTo3]
    decide

/-- Witness for `compute_confidence_spec`: the non-zero-total clause applied
at the concrete histogram of the claim. -/
theorem compute_confidence_spec_witness :
    (10 : Nat) ≠ 0 ∧
      compute_confidence [("integer", 8), ("string", 2)] 10 =
        roundTo3 ((maxCount [("integer", 8), ("string", 2)] : ℚ) / (10 : ℚ)) :=
  ⟨by decide, compute_confidence_spec.1 [("integer", 8), ("string", 2)] 10 (by decide)⟩

/-! ## C10 -/

/-- C10: `_jaccard` returns 1.0 when both sets are empty and 0.0 when exactly
one is empty; consequently a document with no entity labels always meets the
label-similarity threshold against a bucket whose accumulated label set is
also empty. -/
theorem jaccard_empty_semantics :
    jaccard ∅ ∅ = 1 ∧
    (∀ s : Finset String, s ≠ ∅ → jaccard ∅ s = 0 ∧ jaccard s ∅ = 0) ∧
    (∀ b : GroupingBucket, b.ner_labels = ∅ →
      NER_SIMILARITY_THRESHOLD ≤ jaccard b.ner_labels (∅ : Finset String)) := by
  refine ⟨?_, ?_, ?_⟩
  · simp [jaccard]
  · intro s hs
    constructor <;> simp [jaccard, hs]
  · intro b hb
    rw [hb]
    simp [jaccard, NER_SIMILARITY_THRESHOLD]
    norm_num

/-- Witness for `jaccard_empty_semantics`: applied at a singleton set and at
a concrete bucket with no labels. -/
theorem jaccard_empty_semantics_witness :
    (({"person"} : Finset String) ≠ ∅ ∧
      jaccard ∅ {"person"} = 0 ∧ jaccard {"person"} ∅ = 0) ∧
    ((⟨"grp_01", [], ∅, ∅⟩ : GroupingBucket).ner_labels = ∅ ∧
      NER_SIMILARITY_THRESHOLD ≤
        jaccard (⟨"grp_01", [], ∅, ∅⟩ : GroupingBucket).ner_labels (∅ : Finset String)) :=
  ⟨⟨by decide, jaccard_empty_semantics.2.1 {"person"} (by decide)⟩,
    ⟨rfl, jaccard_empty_semantics.2.2 ⟨"grp_01", [], ∅, ∅⟩ rfl⟩⟩

/-! ## C1 -/

/-- C1: for an ingestion against a source with a stored schema (both schemas
carrying a truthy structural Genson schema), equal structural signatures make
the upload a duplicate and the assigned version is exactly the stored
version; different signatures assign the stored version plus one.
The signature function is modelled from the spec because
`inference/genson_integration.py` is not under `src/`. -/
theorem duplicate_upload_version_assignment
    (ex newSchema : SchemaMeta) (gNew gOld : GensonSchema)
    (hNew : newSchema.genson_schema = some gNew)
    (hOld : ex.genson_schema = some gOld)
    (hNewTruthy : gNew ≠ []) (hOldTruthy : gOld ≠ []) :
    (compute_schema_signature gNew = compute_schema_signature gOld →
      assign_upload_version (some ex) newSchema = (ex.version, true)) ∧
    (compute_schema_signature gNew ≠ compute_schema_signature gOld →
      assign_upload_version (some ex) newSchema = (ex.version + 1, false)) := by
  have hdup : handle_duplicate_upload newSchema ex =
      decide (compute_schema_signature gOld = compute_schema_signature gNew) := by
    simp only [handle_duplicate_upload, hNew, hOld]
    rw [if_neg]
    simp [List.isEmpty_iff, hNewTruthy, hOldTruthy]
  constructor
  · intro hsig
    simp [assign_upload_version, hdup, hsig.symm]
  · intro hsig
    simp only [assign_upload_version, hdup]
    rw [decide_eq_false (fun h => hsig (Eq.symm h))]
    simp

/-- Witness for `duplicate_upload_version_assignment`: a stored version-3
schema and a re-upload with the same single-field structure. -/
theorem duplicate_upload_version_assignment_witness :
    assign_upload_version
      (some ⟨3, some [("id", "integer")]⟩) ⟨1, some [("id", "integer")]⟩ = (3, true) :=
  (duplicate_upload_version_assignment
    ⟨3, some [("id", "integer")]⟩ ⟨1, some [("id", "integer")]⟩
    [("id", "integer")] [("id", "integer")] rfl rfl (by decide) (by decide)).1 rfl

/-! ## C7 -/

/-- C7 counterexample: the routing claim as stated fails on the code.  The
record `mixedListRecord` has an unrecognized tag and its data contains no
nested-object value and no list-of-objects value (its only value is a mixed
list `[{}, 1]`), so the claim sends it to the relational store; the code
tests only the first element of a list value, finds a dict there, and sends
the record to the document store. -/
theorem storage_router_claim_counterexample :
    mixedListRecord.source_type ∉ ["json", "yaml_block", "html_table", "csv_block", "kv"] ∧
    specFlat mixedListRecord.data = true ∧
    categorize_records_by_storage [mixedListRecord] = ([mixedListRecord], []) :=
  ⟨by decide, rfl, rfl⟩

/-- C7 (amended): records tagged json/yaml_block go to the document store,
html_table/csv_block/kv to the relational store; for any other tag a record
goes to the relational store exactly when its data has no nested-object
value and no non-empty list value whose first element is an object, and to
the document store otherwise. -/
theorem storage_router_routing (records : List NormalizedRecord) :
    categorize_records_by_storage records =
      (records.filter (fun r => !routesToSqlite r), records.filter routesToSqlite) ∧
    (∀ d : PyDict, is_flat_structure d = true ↔
      ∀ kv ∈ d, (∀ es, kv.2 ≠ PyVal.dict es) ∧
        (∀ v vs, kv.2 = PyVal.list (v :: vs) → v.isDict = false)) := by
  constructor
  · have hstep : ∀ (m s : List NormalizedRecord) (r : NormalizedRecord),
        routeStep (m, s) r =
          (if routesToSqlite r then (m, s ++ [r]) else (m ++ [r], s)) := by
      intro m s r
      unfold routeStep routesToSqlite
      by_cases h1 : r.source_type ∈ ["json", "yaml_block"]
      · simp [h1]
      · by_cases h2 : r.source_type ∈ ["html_table", "csv_block", "kv"]
        · simp [h1, h2]
        · by_cases h3 : is_flat_structure r.data
          · simp [h1, h2, h3]
          · simp [h1, h2, h3]
    have key : ∀ (rs : List NormalizedRecord) (m s : List NormalizedRecord),
        rs.foldl routeStep (m, s) =
          (m ++ rs.filter (fun r => !routesToSqlite r), s ++ rs.filter routesToSqlite) := by
      intro rs
      induction rs with
      | nil => intro m s; simp
      | cons r rest ih =>
        intro m s
        rw [List.foldl_cons, hstep m s r]
        by_cases hr : routesToSqlite r
        · rw [if_pos hr, ih, List.filter_cons, List.filter_cons]
          simp [hr]
        · rw [if_neg hr, ih, List.filter_cons, List.filter_cons]
          simp [hr]
    simpa using key records [] []
  · intro d
    rw [is_flat_structure, List.all_eq_true]
    constructor
    · intro h kv hkv
      have := h kv hkv
      match hv : kv.2 with
      | PyVal.dict es => rw [hv] at this; simp at this
      | PyVal.list [] => exact ⟨by simp, by intro v vs hvvs; simp at hvvs⟩
      | PyVal.list (v :: vs) =>
          rw [hv] at this
          refine ⟨by simp, ?_⟩
          intro w ws hw
          have h2 : v :: vs = w :: ws := by injection hw
          have hvw : v = w := by injection h2
          rw [← hvw]
          simpa using this
      | PyVal.none => exact ⟨by simp, by intro v vs hvvs; simp at hvvs⟩
      | PyVal.bool b => exact ⟨by simp, by intro v vs hvvs; simp at hvvs⟩
      | PyVal.int n => exact ⟨by simp, by intro v vs hvvs; simp at hvvs⟩
      | PyVal.float q => exact ⟨by simp, by intro v vs hvvs; simp at hvvs⟩
      | PyVal.str s => exact ⟨by simp, by intro v vs hvvs; simp at hvvs⟩
      | PyVal.other t => exact ⟨by simp, by intro v vs hvvs; simp at hvvs⟩
    · intro h kv hkv
      obtain ⟨hdict, hlist⟩ := h kv hkv
      match hv : kv.2 with
      | PyVal.dict es => exact absurd hv (hdict es)
      | PyVal.list [] => simp
      | PyVal.list (v :: vs) => simpa using hlist v vs hv
      | PyVal.none => simp
      | PyVal.bool b => simp
      | PyVal.int n => simp
      | PyVal.float q => simp
      | PyVal.str s => simp
      | PyVal.other t => simp

/-- Witness for `storage_router_routing`: a json-tagged record lands on the
document-store side. -/
theorem storage_router_routing_witness :
    categorize_records_by_storage [⟨"json", []⟩] = ([⟨"json", []⟩], []) := by
  have h := (storage_router_routing [⟨"json", []⟩]).1
  simpa [routesToSqlite] using h

/-! ## C6 -/

/-- C6: `build_schema_fields` marks a field nullable exactly when its
presence count is below the record count and records the first non-null
value as its example; on the concrete batch
`[{id: 1, name: Alice}, {id: 2, name: Bob}, {id: 3}]` the generated fields
are id (integer, not nullable, confidence 1.0, example 1) and name (string,
nullable, confidence 1.0, example Alice). -/
theorem schema_generation_nullable_and_example :
    (∀ (records : List PyDict) (fieldTypes : List (String × String))
        (fieldConfidences : List (String × ℚ)),
      ∀ sf ∈ build_schema_fields records fieldTypes fieldConfidences,
        (sf.nullable = true ↔ count_field_occurrences records sf.name < records.length) ∧
        sf.example_value = firstNonNullValue records sf.name) ∧
    generate_schema_fields
        [[("id", PyVal.int 1), ("name", PyVal.str "Alice")],
          [("id", PyVal.int 2), ("name", PyVal.str "Bob")],
          [("id", PyVal.int 3)]] =
      [{ name := "id", type := "integer", nullable := false,
          example_value := some (PyVal.int 1), confidence := 1 },
        { name := "name", type := "string", nullable := true,
          example_value := some (PyVal.str "Alice"), confidence := 1 }] := by
  constructor
  · intro records fieldTypes fieldConfidences sf hsf
    simp only [build_schema_fields, List.mem_map] at hsf
    obtain ⟨ft, hft, rfl⟩ := hsf
    refine ⟨?_, rfl⟩
    simp
  · have hdet :
        detect_data_types
            [[("id", PyVal.int 1), ("name", PyVal.str "Alice")],
              [("id", PyVal.int 2), ("name", PyVal.str "Bob")],
              [("id", PyVal.int 3)]] =
          [("id", "integer"), ("name", "string")] := by decide
    have hcid :
        calculate_field_confidence
            [[("id", PyVal.int 1), ("name", PyVal.str "Alice")],
              [("id", PyVal.int 2), ("name", PyVal.str "Bob")],
              [("id", PyVal.int 3)]] "id" "integer" = 1 := by
      have h1 :
          calculate_field_confidence
              [[("id", PyVal.int 1), ("name", PyVal.str "Alice")],
                [("id", PyVal.int 2), ("name", PyVal.str "Bob")],
                [("id", PyVal.int 3)]] "id" "integer" =
            roundTo3 (((3 : Nat) : ℚ) / ((3 : Nat) : ℚ)) := rfl
      rw [h1]
      norm_num [roundTo3]
    have hcname :
        calculate_field_confidence
            [[("id", PyVal.int 1), ("name", PyVal.str "Alice")],
              [("id", PyVal.int 2), ("name", PyVal.str "Bob")],
              [("id", PyVal.int 3)]] "name" "string" = 1 := by
      have h1 :
          calculate_field_confidence
              [[("id", PyVal.int 1), ("name", PyVal.str "Alice")],
                [("id", PyVal.int 2), ("name", PyVal.str "Bob")],
                [("id", PyVal.int 3)]] "name" "string" =
            roundTo3 (((2 : Nat) : ℚ) / ((2 : Nat) : ℚ)) := rfl
      rw [h1]
      norm_num [roundTo3]
    simp only [generate_schema_fields, hdet, List.map_cons, List.map_nil, hcid, hcname]
    rfl

/-- Witness for `schema_generation_nullable_and_example`: the nullable flag
of the name field of the concrete batch, read through the first clause. -/
theorem schema_generation_nullable_and_example_witness :
    ({ name := "name", type := "string", nullable := true,
        example_value := some (PyVal.str "Alice"), confidence := 1 } : SchemaField) ∈
        build_schema_fields
          [[("id", PyVal.int 1), ("name", PyVal.str "Alice")],
            [("id", PyVal.int 2), ("name", PyVal.str "Bob")],
            [("id", PyVal.int 3)]]
          [("name", "string")] [("name", 1)] ∧
      (count_field_occurrences
          [[("id", PyVal.int 1), ("name", PyVal.str "Alice")],
            [("id", PyVal.int 2), ("name", PyVal.str "Bob")],
            [("id", PyVal.int 3)]] "name" <
        ([[("id", PyVal.int 1), ("name", PyVal.str "Alice")],
            [("id", PyVal.int 2), ("name", PyVal.str "Bob")],
            [("id", PyVal.int 3)]] : List PyDict).length) := by
  have hmem :
      ({ name := "name", type := "string", nullable := true,
          example_value := some (PyVal.str "Alice"), confidence := 1 } : SchemaField) ∈
        build_schema_fields
          [[("id", PyVal.int 1), ("name", PyVal.str "Alice")],
            [("id", PyVal.int 2), ("name", PyVal.str "Bob")],
            [("id", PyVal.int 3)]]
          [("name", "string")] [("name", 1)] := by
    simp only [build_schema_fields, List.map_cons, List.map_nil]
    exact List.mem_singleton.mpr rfl
  refine ⟨hmem, ?_⟩
  exact ((schema_generation_nullable_and_example.1 _ _ _ _ hmem).1).mp rfl

/-! ## C3 -/

theorem betterType_irrefl (p : String × Nat) : betterType p p = false := by
  simp [betterType]

theorem betterType_trans {a b c : String × Nat}
    (h1 : betterType a b = true) (h2 : betterType b c = true) : betterType a c = true := by
  simp only [betterType, Bool.or_eq_true, Bool.and_eq_true, decide_eq_true_eq] at h1 h2 ⊢
  rcases h1 with h1 | ⟨h1e, h1n⟩ <;> rcases h2 with h2 | ⟨h2e, h2n⟩
  · exact Or.inl (h1.trans h2)
  · exact Or.inl (h2e ▸ h1)
  · exact Or.inl (h1e ▸ h2)
  · exact Or.inr ⟨h1e.trans h2e, h2n.trans h1n⟩

theorem betterType_false_trans {a b c : String × Nat}
    (h1 : betterType a b = false) (h2 : betterType b c = false) : betterType a c = false := by
  simp only [betterType, Bool.or_eq_false_iff, Bool.and_eq_false_iff,
    decide_eq_false_iff_not, not_lt] at h1 h2 ⊢
  obtain ⟨h1le, h1r⟩ := h1
  obtain ⟨h2le, h2r⟩ := h2
  refine ⟨h2le.trans h1le, ?_⟩
  by_cases he : a.2 = c.2
  · have hbc : b.2 = c.2 := le_antisymm (he ▸ h1le) h2le
    have hab : a.2 = b.2 := he.trans hbc.symm
    rcases h1r with h1r | h1r
    · exact absurd hab h1r
    · rcases h2r with h2r | h2r
      · exact absurd hbc h2r
      · exact Or.inr (h1r.trans h2r)
  · exact Or.inl he

theorem betterType_false_of_beats {a x p : String × Nat}
    (h1 : betterType a x = false) (h2 : betterType p x = true) : betterType a p = false := by
  by_contra hc
  rw [Bool.not_eq_false] at hc
  exact absurd (betterType_trans hc h2) (by simp [h1])

theorem foldl_best_spec (rest : List (String × Nat)) :
    ∀ p : String × Nat,
      (rest.foldl (fun acc q => if betterType acc q then q else acc) p ∈ p :: rest) ∧
      (∀ q ∈ p :: rest,
        betterType (rest.foldl (fun acc q => if betterType acc q then q else acc) p) q
          = false) := by
  induction rest with
  | nil =>
      intro p
      refine ⟨by simp, ?_⟩
      intro q hq
      simp only [List.foldl_nil]
      simp only [List.mem_singleton] at hq
      subst hq
      exact betterType_irrefl _
  | cons x xs ih =>
      intro p
      simp only [List.foldl_cons]
      by_cases h : betterType p x
      · rw [if_pos h]
        obtain ⟨hmem, hbest⟩ := ih x
        refine ⟨?_, ?_⟩
        · rcases List.mem_cons.mp hmem with h1 | h1
          · rw [h1]
            exact List.mem_cons_of_mem p (List.mem_cons_self x xs)
          · exact List.mem_cons_of_mem p (List.mem_cons_of_mem x h1)
        · intro q hq
          rcases List.mem_cons.mp hq with rfl | hq2
          · exact betterType_false_of_beats (hbest x (List.mem_cons_self x xs)) h
          · exact hbest q hq2
      · rw [if_neg h]
        have hpx : betterType p x = false := by
          simpa using h
        obtain ⟨hmem, hbest⟩ := ih p
        refine ⟨?_, ?_⟩
        · rcases List.mem_cons.mp hmem with h1 | h1
          · rw [h1]
            exact List.mem_cons_self p (x :: xs)
          · exact List.mem_cons_of_mem p (List.mem_cons_of_mem x h1)
        · intro q hq
          rcases List.mem_cons.mp hq with rfl | hq2
          · exact hbest q (List.mem_cons_self q xs)
          · rcases List.mem_cons.mp hq2 with rfl | hq3
            · exact betterType_false_trans (hbest p (List.mem_cons_self p xs)) hpx
            · exact hbest q (List.mem_cons_of_mem p hq3)

theorem dominantOf_spec {tc : List (String × Nat)} (h : tc ≠ []) :
    ∃ c, (dominantOf tc, c) ∈ tc ∧
      ∀ p ∈ tc, p.2 < c ∨ (p.2 = c ∧ dominantOf tc ≤ p.1) := by
  match tc, h with
  | q :: rest, _ =>
    obtain ⟨hmem, hbest⟩ := foldl_best_spec rest q
    have hd : dominantOf (q :: rest)
        = (rest.foldl (fun acc q => if betterType acc q then q else acc) q).1 := rfl
    rw [hd]
    generalize hr : rest.foldl (fun acc q => if betterType acc q then q else acc) q = r
      at hmem hbest
    refine ⟨r.2, by simpa using hmem, ?_⟩
    intro p hp
    have hb := hbest p hp
    simp only [betterType, Bool.or_eq_false_iff, Bool.and_eq_false_iff,
      decide_eq_false_iff_not, not_lt] at hb
    obtain ⟨hle, hrr⟩ := hb
    rcases lt_or_eq_of_le hle with hlt | heq
    · exact Or.inl hlt
    · refine Or.inr ⟨heq, ?_⟩
      rcases hrr with hrr | hrr
      · exact absurd heq.symm hrr
      · exact hrr

theorem mem_dedupKeysAux {l : List String} :
    ∀ {seen : List String} {a : String},
      a ∈ dedupKeysAux seen l ↔ a ∈ l ∧ a ∉ seen := by
  induction l with
  | nil => intro seen a; simp [dedupKeysAux]
  | cons x xs ih =>
      intro seen a
      simp only [dedupKeysAux]
      by_cases hx : x ∈ seen
      · rw [if_pos hx, ih]
        constructor
        · rintro ⟨h1, h2⟩
          exact ⟨List.mem_cons_of_mem x h1, h2⟩
        · rintro ⟨h1, h2⟩
          rcases List.mem_cons.mp h1 with rfl | h1
          · exact absurd hx h2
          · exact ⟨h1, h2⟩
      · rw [if_neg hx]
        simp only [List.mem_cons, ih]
        constructor
        · rintro (rfl | ⟨h1, h2⟩)
          · exact ⟨Or.inl rfl, hx⟩
          · simp only [List.mem_cons, not_or] at h2
            exact ⟨Or.inr h1, h2.2⟩
        · rintro ⟨h1 | h1, h2⟩
          · exact Or.inl h1
          · by_cases hax : a = x
            · exact Or.inl hax
            · exact Or.inr ⟨h1, by simp [hax, h2]⟩

theorem mem_dedupKeys {l : List String} {a : String} : a ∈ dedupKeys l ↔ a ∈ l := by
  rw [dedupKeys, mem_dedupKeysAux]
  simp

theorem nodup_dedupKeysAux (l : List String) :
    ∀ seen : List String, (dedupKeysAux seen l).Nodup := by
  induction l with
  | nil => intro seen; simp [dedupKeysAux]
  | cons x xs ih =>
      intro seen
      simp only [dedupKeysAux]
      by_cases hx : x ∈ seen
      · rw [if_pos hx]; exact ih seen
      · rw [if_neg hx]
        refine List.nodup_cons.mpr ⟨?_, ih (x :: seen)⟩
        rw [mem_dedupKeysAux]
        rintro ⟨-, h2⟩
        exact h2 (List.mem_cons_self x seen)

theorem lookup_map_key {l : List String} {f : String → Nat} {t : String} (h : t ∈ l) :
    (l.map (fun x => (x, f x))).lookup t = some (f t) := by
  induction l with
  | nil => simp at h
  | cons x xs ih =>
      simp only [List.map_cons, List.lookup_cons]
      by_cases hx : t = x
      · subst hx
        simp
      · have hbeq : (t == x) = false := beq_eq_false_iff_ne.mpr hx
        rw [hbeq]
        have h1 : t ∈ xs := by
          rcases List.mem_cons.mp h with h2 | h2
          · exact absurd h2 hx
          · exact h2
        exact ih h1

theorem typeCounts_lookup {ts : List String} {t : String} (h : t ∈ ts) :
    (typeCounts ts).lookup t = some (ts.count t) := by
  rw [typeCounts]
  exact lookup_map_key (mem_dedupKeys.mpr h)

theorem lookup_renumber {c : Nat} {l : List (String × Nat)}
    (h : "number" ∈ l.map Prod.fst) :
    (l.map (fun p => if p.1 = "number" then (p.1, c) else p)).lookup "number" = some c := by
  induction l with
  | nil => simp at h
  | cons p ps ih =>
      obtain ⟨k, v⟩ := p
      by_cases hp : k = "number"
      · subst hp
        simp [List.lookup_cons]
      · rw [List.map_cons]
        have hif : (if ((k, v) : String × Nat).1 = "number"
            then (((k, v) : String × Nat).1, c) else ((k, v) : String × Nat)) = (k, v) := by
          simp [hp]
        rw [hif, List.lookup_cons]
        have hbeq : ("number" == k) = false :=
          beq_eq_false_iff_ne.mpr (fun hc => hp hc.symm)
        rw [hbeq]
        have h1 : "number" ∈ ps.map Prod.fst := by
          rw [List.map_cons] at h
          rcases List.mem_cons.mp h with h2 | h2
          · exact absurd h2.symm hp
          · exact h2
        exact ih h1

theorem promote_both_present {ts : List String}
    (hi : "integer" ∈ ts) (hn : "number" ∈ ts) :
    promoteIntegerNumber (typeCounts ts) =
      ((typeCounts ts).filter (fun p => p.1 ≠ "integer")).map
        (fun p =>
          if p.1 = "number" then (p.1, ts.count "integer" + ts.count "number") else p) := by
  rw [promoteIntegerNumber, typeCounts_lookup hi, typeCounts_lookup hn]

theorem number_mem_filtered_keys {ts : List String} (hn : "number" ∈ ts) :
    "number" ∈ (((typeCounts ts).filter (fun p => p.1 ≠ "integer")).map Prod.fst) := by
  have hmem : ("number", ts.count "number") ∈ typeCounts ts := by
    rw [typeCounts]
    exact List.mem_map.mpr ⟨"number", mem_dedupKeys.mpr hn, rfl⟩
  have hfil : ("number", ts.count "number") ∈
      (typeCounts ts).filter (fun p => p.1 ≠ "integer") :=
    List.mem_filter.mpr ⟨hmem, by simp⟩
  exact List.mem_map.mpr ⟨_, hfil, rfl⟩

theorem promoted_keys_eq_filtered {ts : List String}
    (hi : "integer" ∈ ts) (hn : "number" ∈ ts) :
    (promoteIntegerNumber (typeCounts ts)).map Prod.fst =
      (((typeCounts ts).filter (fun p => p.1 ≠ "integer")).map Prod.fst) := by
  rw [promote_both_present hi hn, List.map_map]
  refine List.map_congr_left ?_
  intro p hp
  by_cases hpn : p.1 = "number" <;> simp [hpn]

theorem sorted_string_mergeSort (l : List String) :
    (l.mergeSort (fun a b => decide (a ≤ b))).Sorted (· ≤ ·) := by
  have htrans : ∀ a b c : String,
      (fun a b : String => decide (a ≤ b)) a b = true →
      (fun a b : String => decide (a ≤ b)) b c = true →
      (fun a b : String => decide (a ≤ b)) a c = true := by
    intro a b c hab hbc
    simp only [decide_eq_true_eq] at hab hbc ⊢
    exact hab.trans hbc
  have htotal : ∀ a b : String,
      ((fun a b : String => decide (a ≤ b)) a b ||
        (fun a b : String => decide (a ≤ b)) b a) = true := by
    intro a b
    simp only [Bool.or_eq_true, decide_eq_true_eq]
    exact le_total a b
  have h := List.sorted_mergeSort htrans htotal l
  exact h.imp (fun hab => of_decide_eq_true hab)

theorem lookup_isSome_mem_keys {β : Type} {l : List (String × β)} {k : String} {v : β}
    (h : l.lookup k = some v) : k ∈ l.map Prod.fst := by
  induction l with
  | nil => simp at h
  | cons p ps ih =>
      obtain ⟨a, b⟩ := p
      rw [List.lookup_cons] at h
      by_cases hk : k = a
      · subst hk
        simp
      · have hbeq : (k == a) = false := beq_eq_false_iff_ne.mpr hk
        rw [hbeq] at h
        exact List.mem_cons_of_mem _ (ih h)

theorem typeCounts_ne_nil {ts : List String} (h : ts ≠ []) : typeCounts ts ≠ [] := by
  match ts, h with
  | x :: xs, _ =>
    have hx : x ∈ dedupKeys (x :: xs) := mem_dedupKeys.mpr (List.mem_cons_self x xs)
    intro hc
    rw [typeCounts, List.map_eq_nil_iff] at hc
    rw [hc] at hx
    simp at hx

theorem promote_ne_nil {tc : List (String × Nat)} (h : tc ≠ []) :
    promoteIntegerNumber tc ≠ [] := by
  rw [promoteIntegerNumber]
  cases hi : tc.lookup "integer" with
  | none => simpa using h
  | some ci =>
    cases hn : tc.lookup "number" with
    | none => simpa using h
    | some cn =>
      have hmem := lookup_isSome_mem_keys hn
      obtain ⟨p, hp, hpn⟩ := List.mem_map.mp hmem
      have hpf : p ∈ tc.filter (fun p => p.1 ≠ "integer") := by
        refine List.mem_filter.mpr ⟨hp, ?_⟩
        simp [hpn]
      intro hc
      rw [List.map_eq_nil_iff] at hc
      rw [hc] at hpf
      simp at hpf

/-- C3: `merge_types` counts occurrences per tag; when both integer and
number occur, their counts are combined under number and integer leaves the
union; the dominant tag is a most-frequent entry of the promoted counts with
alphabetical tie-break; the union is the sorted distinct key set after
promotion; and the claim's two concrete evaluations hold. -/
theorem merge_types_spec :
    merge_types ["integer", "number", "integer"] = ("number", ["number"]) ∧
    merge_types [] = ("unknown", []) ∧
    (∀ (ts : List String) (t : String), t ∈ ts →
      (typeCounts ts).lookup t = some (ts.count t)) ∧
    (∀ ts : List String, ts ≠ [] →
      ∃ c, ((merge_types ts).1, c) ∈ promoteIntegerNumber (typeCounts ts) ∧
        ∀ p ∈ promoteIntegerNumber (typeCounts ts),
          p.2 < c ∨ (p.2 = c ∧ (merge_types ts).1 ≤ p.1)) ∧
    (∀ ts : List String,
      (merge_types ts).2.Sorted (· ≤ ·) ∧
      (merge_types ts).2.Perm ((promoteIntegerNumber (typeCounts ts)).map Prod.fst)) ∧
    (∀ ts : List String, "integer" ∈ ts → "number" ∈ ts →
      (promoteIntegerNumber (typeCounts ts)).lookup "number" =
        some (ts.count "integer" + ts.count "number") ∧
      "integer" ∉ (merge_types ts).2) := by
  refine ⟨?_, by decide, ?_, ?_, ?_, ?_⟩
  · have h1 : (merge_types ["integer", "number", "integer"]).1 = "number" := by decide
    have hm : (merge_types ["integer", "number", "integer"]).2 =
        List.mergeSort ["number"] (fun a b : String => decide (a ≤ b)) := rfl
    have h2 : (merge_types ["integer", "number", "integer"]).2 = ["number"] :=
      hm.trans (List.mergeSort_of_sorted (by simp))
    rw [Prod.ext_iff]
    exact ⟨h1, h2⟩
  · intro ts t ht
    exact typeCounts_lookup ht
  · intro ts hts
    have hne : promoteIntegerNumber (typeCounts ts) ≠ [] :=
      promote_ne_nil (typeCounts_ne_nil hts)
    have h1 : (merge_types ts).1 = dominantOf (promoteIntegerNumber (typeCounts ts)) := by
      rw [merge_types, if_neg hts]
    rw [h1]
    exact dominantOf_spec hne
  · intro ts
    by_cases hts : ts = []
    · subst hts
      have hp : promoteIntegerNumber (typeCounts []) = [] := rfl
      constructor
      · simp [merge_types]
      · simp [merge_types, hp]
    · have h2 : (merge_types ts).2 =
          ((promoteIntegerNumber (typeCounts ts)).map Prod.fst).mergeSort
            (fun a b => decide (a ≤ b)) := by
        rw [merge_types, if_neg hts]
      rw [h2]
      exact ⟨sorted_string_mergeSort _, List.mergeSort_perm _ _⟩
  · intro ts hi hn
    have hts : ts ≠ [] := by
      intro hc
      rw [hc] at hi
      simp at hi
    constructor
    · rw [promote_both_present hi hn]
      exact lookup_renumber (number_mem_filtered_keys hn)
    · have h2 : (merge_types ts).2 =
          ((promoteIntegerNumber (typeCounts ts)).map Prod.fst).mergeSort
            (fun a b => decide (a ≤ b)) := by
        rw [merge_types, if_neg hts]
      rw [h2]
      intro hmem
      rw [List.mem_mergeSort, promoted_keys_eq_filtered hi hn] at hmem
      obtain ⟨p, hp, hpi⟩ := List.mem_map.mp hmem
      have := (List.mem_filter.mp hp).2
      rw [hpi] at this
      simp at this

/-- Witness for `merge_types_spec`: the dominant-entry clause applied to the
two-tag list [boolean, string] (alphabetical tie-break picks boolean). -/
theorem merge_types_spec_witness :
    (["boolean", "string"] : List String) ≠ [] ∧
      ∃ c, ((merge_types ["boolean", "string"]).1, c) ∈
          promoteIntegerNumber (typeCounts ["boolean", "string"]) ∧
        ∀ p ∈ promoteIntegerNumber (typeCounts ["boolean", "string"]),
          p.2 < c ∨ (p.2 = c ∧ (merge_types ["boolean", "string"]).1 ≤ p.1) :=
  ⟨by decide, merge_types_spec.2.2.2.1 ["boolean", "string"] (by decide)⟩

/-! ## C2 -/

theorem except_bind_error {α β : Type} (e : String) (f : α → Except String β) :
    (Except.error e : Except String α) >>= f = Except.error e := rfl

theorem except_bind_ok {α β : Type} (a : α) (f : α → Except String β) :
    (Except.ok a : Except String α) >>= f = f a := rfl

theorem exceptMap_error_of_mem {α β : Type} {g : α → Except String β} {l : List α} {x : α}
    (hx : x ∈ l) {e : String} (hgx : g x = Except.error e) :
    ∃ e2, exceptMap g l = Except.error e2 := by
  induction l with
  | nil => simp at hx
  | cons a as ih =>
      rcases List.mem_cons.mp hx with rfl | hxs
      · exact ⟨e, by simp [exceptMap, hgx, except_bind_error, except_bind_ok]⟩
      · cases hga : g a with
        | error e3 => exact ⟨e3, by simp [exceptMap, hga, except_bind_error, except_bind_ok]⟩
        | ok y =>
            obtain ⟨e2, h2⟩ := ih hxs
            exact ⟨e2, by simp [exceptMap, hga, h2, except_bind_error, except_bind_ok]⟩

theorem build_sqlite_sql_error_of_select {q : SqliteQuery} {tableName : String}
    {cols : List String} (h : ∃ e, build_select_clause q.select cols = Except.error e) :
    ∃ e, build_sqlite_sql q tableName cols = Except.error e := by
  obtain ⟨e, he⟩ := h
  exact ⟨e, by simp [build_sqlite_sql, he, except_bind_error, except_bind_ok]⟩

theorem build_sqlite_sql_error_of_where {q : SqliteQuery} {tableName : String}
    {cols : List String} (h : ∃ e, build_where_clause q.whereClause cols = Except.error e) :
    ∃ e, build_sqlite_sql q tableName cols = Except.error e := by
  obtain ⟨e, he⟩ := h
  cases hs : build_select_clause q.select cols with
  | error e2 => exact ⟨e2, by simp [build_sqlite_sql, hs, except_bind_error, except_bind_ok]⟩
  | ok sc => exact ⟨e, by simp [build_sqlite_sql, hs, he, except_bind_error, except_bind_ok]⟩

theorem build_sqlite_sql_error_of_order {q : SqliteQuery} {tableName : String}
    {cols : List String} (h : ∃ e, build_order_by_clause q.order_by cols = Except.error e) :
    ∃ e, build_sqlite_sql q tableName cols = Except.error e := by
  obtain ⟨e, he⟩ := h
  cases hs : build_select_clause q.select cols with
  | error e2 => exact ⟨e2, by simp [build_sqlite_sql, hs, except_bind_error, except_bind_ok]⟩
  | ok sc =>
      cases hw : build_where_clause q.whereClause cols with
      | error e3 => exact ⟨e3, by simp [build_sqlite_sql, hs, hw, except_bind_error, except_bind_ok]⟩
      | ok wp => exact ⟨e, by simp [build_sqlite_sql, hs, hw, he, except_bind_error, except_bind_ok]⟩

theorem build_select_clause_unknown_column {sel : List PyVal} {cols : List String}
    {f : String} (hmem : PyVal.str f ∈ sel) (hf : f ∉ cols) :
    ∃ e, build_select_clause (some sel) cols = Except.error e := by
  by_cases hemp : sel.isEmpty
  · exact ⟨"select must be a non-empty list of column names",
      by simp [build_select_clause, hemp]⟩
  · have hg : selectEntry cols (PyVal.str f) =
        Except.error "Column is not available in SQLite table" := by
      simp [selectEntry, hf]
    obtain ⟨e2, h2⟩ := exceptMap_error_of_mem hmem hg
    exact ⟨e2, by simp [build_select_clause, hemp, h2, except_bind_error, except_bind_ok]⟩

theorem build_where_clause_unknown_column {w : PyDict} {cols : List String}
    {p : String × PyVal} (hmem : p ∈ w) (hp : p.1 ∉ cols) :
    ∃ e, build_where_clause (some w) cols = Except.error e := by
  have hemp : ¬ w.isEmpty := by
    cases w
    · simp at hmem
    · simp
  have hg : whereColumnEntry cols p =
      Except.error "Column is not available in SQLite table" := by
    simp [whereColumnEntry, hp]
  obtain ⟨e2, h2⟩ := exceptMap_error_of_mem hmem hg
  exact ⟨e2, by simp [build_where_clause, hemp, h2, except_bind_error, except_bind_ok]⟩

theorem render_condition_unsupported_operator {column : String} {entries : PyDict}
    {op : String × PyVal} (hmem : op ∈ entries) (hop : op.1 ∉ SQLITE_SUPPORTED_OPERATORS) :
    ∃ e, render_condition column (PyVal.dict entries) = Except.error e := by
  by_cases hemp : entries.isEmpty
  · exact ⟨"Operator dict cannot be empty", by simp [render_condition, hemp]⟩
  · have hg : whereOperatorEntry column op =
        Except.error "Unsupported operator for SQLite queries" := by
      simp [whereOperatorEntry, hop]
    obtain ⟨e2, h2⟩ := exceptMap_error_of_mem hmem hg
    exact ⟨e2, by simp [render_condition, hemp, h2, except_bind_error, except_bind_ok]⟩

theorem build_where_clause_unsupported_operator {w : PyDict} {cols : List String}
    {p : String × PyVal} {entries : PyDict} {op : String × PyVal}
    (hmem : p ∈ w) (hdict : p.2 = PyVal.dict entries) (hopmem : op ∈ entries)
    (hop : op.1 ∉ SQLITE_SUPPORTED_OPERATORS) :
    ∃ e, build_where_clause (some w) cols = Except.error e := by
  have hemp : ¬ w.isEmpty := by
    cases w
    · simp at hmem
    · simp
  by_cases hcol : p.1 ∈ cols
  · obtain ⟨e1, h1⟩ := @render_condition_unsupported_operator p.1 entries op hopmem hop
    have hg : whereColumnEntry cols p = Except.error e1 := by
      rw [whereColumnEntry, if_pos hcol, hdict] at *
      exact h1
    obtain ⟨e2, h2⟩ := exceptMap_error_of_mem hmem hg
    exact ⟨e2, by simp [build_where_clause, hemp, h2, except_bind_error, except_bind_ok]⟩
  · exact build_where_clause_unknown_column hmem hcol

theorem orderEntry_unknown_column_dict {cols : List String} {c : String} {d : PyVal}
    (hc : c ∉ cols) :
    ∃ e, orderEntry cols (PyVal.dict [(c, d)]) = Except.error e :=
  ⟨"Column is not available in SQLite table",
    by simp [orderEntry, parseOrderEntry, hc, except_bind_error, except_bind_ok]⟩

theorem orderEntry_unknown_column_pair {cols : List String} {c : String} {d : PyVal}
    (hc : c ∉ cols) :
    ∃ e, orderEntry cols (PyVal.list [PyVal.str c, d]) = Except.error e :=
  ⟨"Column is not available in SQLite table",
    by simp [orderEntry, parseOrderEntry, hc, except_bind_error, except_bind_ok]⟩

theorem build_order_by_clause_unknown_column {ob : List PyVal} {cols : List String}
    {entry : PyVal} {c : String}
    (hmem : entry ∈ ob) (hc : c ∉ cols)
    (hshape : (∃ d, entry = PyVal.dict [(c, d)]) ∨ (∃ d, entry = PyVal.list [PyVal.str c, d])) :
    ∃ e, build_order_by_clause (some ob) cols = Except.error e := by
  have hemp : ¬ ob.isEmpty := by
    cases ob
    · simp at hmem
    · simp
  have hg : ∃ e, orderEntry cols entry = Except.error e := by
    rcases hshape with ⟨d, rfl⟩ | ⟨d, rfl⟩
    · exact orderEntry_unknown_column_dict hc
    · exact orderEntry_unknown_column_pair hc
  obtain ⟨e1, h1⟩ := hg
  obtain ⟨e2, h2⟩ := exceptMap_error_of_mem hmem h1
  exact ⟨e2, by simp [build_order_by_clause, hemp, h2, except_bind_error, except_bind_ok]⟩

theorem render_operator_in_error {column : String} {value : PyVal}
    (h : ∀ vs : List PyVal, value = PyVal.list vs → vs = []) :
    ∃ e, render_operator column "$in" value = Except.error e := by
  refine ⟨"in requires a non-empty list of values", ?_⟩
  cases value with
  | list vs =>
      have := h vs rfl
      subst this
      simp [render_operator]
  | none => simp [render_operator]
  | bool b => simp [render_operator]
  | int n => simp [render_operator]
  | float q => simp [render_operator]
  | str s => simp [render_operator]
  | dict entries => simp [render_operator]
  | other t => simp [render_operator]

theorem render_operator_in_ok (column : String) (vs : List PyVal) (h : vs ≠ []) :
    render_operator column "$in" (PyVal.list vs) =
      Except.ok
        (column ++ " IN (" ++ String.intercalate ", " (vs.map (fun _ => "?")) ++ ")", vs) := by
  have hemp : vs.isEmpty = false := by simpa [List.isEmpty_iff] using h
  simp [render_operator, hemp]

theorem render_operator_parameterized {column operator : String} {v : PyVal}
    {c : String} {p : List PyVal}
    (h : render_operator column operator v = Except.ok (c, p)) :
    (operator = "$in" ∧ ∃ vs, v = PyVal.list vs ∧ p = vs ∧
        c = column ++ " IN (" ++ String.intercalate ", " (vs.map (fun _ => "?")) ++ ")") ∨
      (∃ sqlOp, sqlComparisonOf operator = some sqlOp ∧ p = [v] ∧
        c = column ++ " " ++ sqlOp ++ " ?") ∨
      (operator = "$like" ∧ p = [v] ∧ c = column ++ " LIKE ?") := by
  by_cases hin : operator = "$in"
  · subst hin
    cases v with
    | list vs =>
        by_cases hemp : vs.isEmpty
        · simp [render_operator, hemp] at h
        · simp [render_operator, hemp] at h
          left
          refine ⟨rfl, vs, rfl, h.2.symm, ?_⟩
          rw [List.map_const']
          exact h.1.symm
    | none => simp [render_operator] at h
    | bool b => simp [render_operator] at h
    | int n => simp [render_operator] at h
    | float q => simp [render_operator] at h
    | str s => simp [render_operator] at h
    | dict entries => simp [render_operator] at h
    | other t => simp [render_operator] at h
  · by_cases hlike : operator = "$like"
    · subst hlike
      cases v with
      | str s =>
          simp [render_operator] at h
          right; right
          exact ⟨rfl, h.2.symm, h.1.symm⟩
      | none => simp [render_operator] at h
      | bool b => simp [render_operator] at h
      | int n => simp [render_operator] at h
      | float q => simp [render_operator] at h
      | dict entries => simp [render_operator] at h
      | list items => simp [render_operator] at h
      | other t => simp [render_operator] at h
    · cases hop : sqlComparisonOf operator with
      | none => simp [render_operator, hin, hlike, hop] at h
      | some sqlOp =>
          simp [render_operator, hin, hlike, hop] at h
          right; left
          exact ⟨sqlOp, rfl, h.2.symm, h.1.symm⟩

/-- C2: every unknown-column reference in select, where or order_by, and
every unsupported where-operator, makes the SQLite query builder fail with a
client error before any SQL exists to execute; `$in` demands a non-empty
list and expands to one "?" per element with the values as parameters; and
every successfully rendered operator emits only placeholder SQL, carrying
the literal values exclusively in the parameter list. -/
theorem sqlite_query_validation :
    (∀ (q : SqliteQuery) (tableName : String) (cols : List String),
      ((∃ sel, q.select = some sel ∧ ∃ f, PyVal.str f ∈ sel ∧ f ∉ cols) ∨
        (∃ w, q.whereClause = some w ∧ ∃ p ∈ w, p.1 ∉ cols) ∨
        (∃ w, q.whereClause = some w ∧ ∃ p ∈ w, ∃ entries, p.2 = PyVal.dict entries ∧
          ∃ op ∈ entries, op.1 ∉ SQLITE_SUPPORTED_OPERATORS) ∨
        (∃ ob, q.order_by = some ob ∧ ∃ entry ∈ ob, ∃ c, c ∉ cols ∧
          ((∃ d, entry = PyVal.dict [(c, d)]) ∨
            (∃ d, entry = PyVal.list [PyVal.str c, d])))) →
      ∃ e, build_sqlite_sql q tableName cols = Except.error e) ∧
    (∀ (column : String) (value : PyVal),
      (∀ vs : List PyVal, value = PyVal.list vs → vs = []) →
      ∃ e, render_operator column "$in" value = Except.error e) ∧
    (∀ (column : String) (vs : List PyVal), vs ≠ [] →
      render_operator column "$in" (PyVal.list vs) =
        Except.ok
          (column ++ " IN (" ++ String.intercalate ", " (vs.map (fun _ => "?")) ++ ")", vs)) ∧
    (∀ (column operator : String) (v : PyVal) (c : String) (p : List PyVal),
      render_operator column operator v = Except.ok (c, p) →
      (operator = "$in" ∧ ∃ vs, v = PyVal.list vs ∧ p = vs ∧
          c = column ++ " IN (" ++ String.intercalate ", " (vs.map (fun _ => "?")) ++ ")") ∨
        (∃ sqlOp, sqlComparisonOf operator = some sqlOp ∧ p = [v] ∧
          c = column ++ " " ++ sqlOp ++ " ?") ∨
        (operator = "$like" ∧ p = [v] ∧ c = column ++ " LIKE ?")) := by
  refine ⟨?_, ?_, ?_, ?_⟩
  · intro q tableName cols h
    rcases h with ⟨sel, hsel, f, hmem, hf⟩ | ⟨w, hw, p, hmem, hp⟩ |
      ⟨w, hw, p, hmem, entries, hdict, op, hopmem, hop⟩ |
      ⟨ob, hob, entry, hmem, c, hc, hshape⟩
    · refine build_sqlite_sql_error_of_select ?_
      rw [hsel]
      exact build_select_clause_unknown_column hmem hf
    · refine build_sqlite_sql_error_of_where ?_
      rw [hw]
      exact build_where_clause_unknown_column hmem hp
    · refine build_sqlite_sql_error_of_where ?_
      rw [hw]
      exact build_where_clause_unsupported_operator hmem hdict hopmem hop
    · refine build_sqlite_sql_error_of_order ?_
      rw [hob]
      exact build_order_by_clause_unknown_column hmem hc hshape
  · intro column value h
    exact render_operator_in_error h
  · intro column vs h
    exact render_operator_in_ok column vs h
  · intro column operator v c p h
    exact render_operator_parameterized h

/-- Witness for `sqlite_query_validation`: a select naming an absent column
makes the builder fail, and a concrete two-element `$in` renders two
placeholders with the literals as parameters. -/
theorem sqlite_query_validation_witness :
    (∃ e, build_sqlite_sql ⟨some [PyVal.str "missing"], Option.none, Option.none, Option.none⟩
        "tbl" ["status"] = Except.error e) ∧
      render_operator "status" "$in" (PyVal.list [PyVal.str "active", PyVal.str "pending"]) =
        Except.ok ("status IN (?, ?)", [PyVal.str "active", PyVal.str "pending"]) := by
  constructor
  · exact sqlite_query_validation.1
      ⟨some [PyVal.str "missing"], Option.none, Option.none, Option.none⟩ "tbl" ["status"]
      (Or.inl ⟨[PyVal.str "missing"], rfl, "missing", List.mem_singleton.mpr rfl, by decide⟩)
  · have h := sqlite_query_validation.2.2.1 "status"
      [PyVal.str "active", PyVal.str "pending"] (List.cons_ne_nil _ _)
    simpa using h

/-! ## C8 -/

theorem insertIntoFirstBucket_length {buckets : List GroupingBucket} {doc : PyDict}
    {f l : Finset String} {bs : List GroupingBucket}
    (h : insertIntoFirstBucket buckets doc f l = some bs) : bs.length = buckets.length := by
  induction buckets generalizing bs with
  | nil => simp [insertIntoFirstBucket] at h
  | cons b rest ih =>
      simp only [insertIntoFirstBucket] at h
      by_cases hc : b.is_compatible f l
      · rw [if_pos hc] at h
        have hbs : bs = b.add_document doc f l :: rest := (Option.some.inj h).symm
        subst hbs
        simp
      · rw [if_neg hc] at h
        cases hrec : insertIntoFirstBucket rest doc f l with
        | none => rw [hrec] at h; simp at h
        | some bs2 =>
            rw [hrec] at h
            have hbs : bs = b :: bs2 := by
              simpa using h.symm
            subst hbs
            simp [ih hrec]

theorem insertIntoFirstBucket_mem {buckets : List GroupingBucket} {doc : PyDict}
    {f l : Finset String} {bs : List GroupingBucket}
    (h : insertIntoFirstBucket buckets doc f l = some bs) :
    ∀ x ∈ bs, x ∈ buckets ∨
      ∃ y ∈ buckets, y.is_compatible f l = true ∧ x = y.add_document doc f l := by
  induction buckets generalizing bs with
  | nil => simp [insertIntoFirstBucket] at h
  | cons b rest ih =>
      simp only [insertIntoFirstBucket] at h
      by_cases hc : b.is_compatible f l
      · rw [if_pos hc] at h
        have hbs : bs = b.add_document doc f l :: rest := (Option.some.inj h).symm
        subst hbs
        intro x hx
        rcases List.mem_cons.mp hx with rfl | hx2
        · exact Or.inr ⟨b, List.mem_cons_self b rest, hc, rfl⟩
        · exact Or.inl (List.mem_cons_of_mem b hx2)
      · rw [if_neg hc] at h
        cases hrec : insertIntoFirstBucket rest doc f l with
        | none => rw [hrec] at h; simp at h
        | some bs2 =>
            rw [hrec] at h
            have hbs : bs = b :: bs2 := by simpa using h.symm
            subst hbs
            intro x hx
            rcases List.mem_cons.mp hx with rfl | hx2
            · exact Or.inl (List.mem_cons_self x rest)
            · rcases ih hrec x hx2 with h1 | ⟨y, hy, hyc, hxy⟩
              · exact Or.inl (List.mem_cons_of_mem b h1)
              · exact Or.inr ⟨y, List.mem_cons_of_mem b hy, hyc, hxy⟩

theorem insertIntoFirstBucket_isSome {buckets : List GroupingBucket} {doc : PyDict}
    {f l : Finset String} {bs : List GroupingBucket}
    (h : insertIntoFirstBucket buckets doc f l = some bs) :
    ∃ b ∈ buckets, b.is_compatible f l = true := by
  induction buckets generalizing bs with
  | nil => simp [insertIntoFirstBucket] at h
  | cons b rest ih =>
      simp only [insertIntoFirstBucket] at h
      by_cases hc : b.is_compatible f l
      · exact ⟨b, List.mem_cons_self b rest, hc⟩
      · rw [if_neg hc] at h
        cases hrec : insertIntoFirstBucket rest doc f l with
        | none => rw [hrec] at h; simp at h
        | some bs2 =>
            obtain ⟨y, hy, hyc⟩ := ih hrec
            exact ⟨y, List.mem_cons_of_mem b hy, hyc⟩

theorem bucketFieldsUnion_cons (b : GroupingBucket) (rest : List GroupingBucket) :
    bucketFieldsUnion (b :: rest) = b.field_names ∪ bucketFieldsUnion rest := rfl

theorem bucketFieldsUnion_append_singleton (xs : List GroupingBucket) (b : GroupingBucket) :
    bucketFieldsUnion (xs ++ [b]) = bucketFieldsUnion xs ∪ b.field_names := by
  induction xs with
  | nil => simp [bucketFieldsUnion]
  | cons x xs2 ih =>
      rw [List.cons_append, bucketFieldsUnion_cons, bucketFieldsUnion_cons, ih,
        Finset.union_assoc]

theorem insertIntoFirstBucket_union {buckets : List GroupingBucket} {doc : PyDict}
    {f l : Finset String} {bs : List GroupingBucket}
    (h : insertIntoFirstBucket buckets doc f l = some bs) :
    bucketFieldsUnion bs = bucketFieldsUnion buckets ∪ f := by
  induction buckets generalizing bs with
  | nil => simp [insertIntoFirstBucket] at h
  | cons b rest ih =>
      simp only [insertIntoFirstBucket] at h
      by_cases hc : b.is_compatible f l
      · rw [if_pos hc] at h
        have hbs : bs = b.add_document doc f l :: rest := (Option.some.inj h).symm
        subst hbs
        rw [bucketFieldsUnion_cons, bucketFieldsUnion_cons]
        simp only [GroupingBucket.add_document]
        ext a
        simp only [Finset.mem_union]
        tauto
      · rw [if_neg hc] at h
        cases hrec : insertIntoFirstBucket rest doc f l with
        | none => rw [hrec] at h; simp at h
        | some bs2 =>
            rw [hrec] at h
            have hbs : bs = b :: bs2 := by simpa using h.symm
            subst hbs
            rw [bucketFieldsUnion_cons, bucketFieldsUnion_cons, ih hrec,
              Finset.union_assoc]

theorem stepDoc_length (S : List GroupingBucket) (d : PyDict) :
    (stepDoc S d).length = S.length ∨ (stepDoc S d).length = S.length + 1 := by
  simp only [stepDoc]
  cases h : insertIntoFirstBucket S d (extract_field_names d) (extract_ner_labels d) with
  | none => right; simp
  | some bs => left; exact insertIntoFirstBucket_length h

theorem foldl_stepDoc_length_mono (docs : List PyDict) :
    ∀ S : List GroupingBucket, S.length ≤ (docs.foldl stepDoc S).length := by
  induction docs with
  | nil => intro S; simp
  | cons d rest ih =>
      intro S
      simp only [List.foldl_cons]
      have h1 := stepDoc_length S d
      have h2 := ih (stepDoc S d)
      rcases h1 with h1 | h1 <;> omega

theorem stepDoc_union (S : List GroupingBucket) (d : PyDict) :
    bucketFieldsUnion (stepDoc S d) = bucketFieldsUnion S ∪ extract_field_names d := by
  simp only [stepDoc]
  cases h : insertIntoFirstBucket S d (extract_field_names d) (extract_ner_labels d) with
  | none =>
      rw [bucketFieldsUnion_append_singleton]
      simp [GroupingBucket.add_document]
  | some bs => exact insertIntoFirstBucket_union h

theorem unionFieldsOfDocs_cons (d : PyDict) (rest : List PyDict) :
    unionFieldsOfDocs (d :: rest) = extract_field_names d ∪ unionFieldsOfDocs rest := rfl

theorem foldl_stepDoc_union (docs : List PyDict) :
    ∀ S, bucketFieldsUnion (docs.foldl stepDoc S) =
      bucketFieldsUnion S ∪ unionFieldsOfDocs docs := by
  induction docs with
  | nil => intro S; simp [unionFieldsOfDocs]
  | cons d rest ih =>
      intro S
      simp only [List.foldl_cons]
      rw [ih, stepDoc_union, unionFieldsOfDocs_cons]
      ext a
      simp only [Finset.mem_union]
      tauto

theorem mem_bucketFieldsUnion {S : List GroupingBucket} {a : String}
    (h : a ∈ bucketFieldsUnion S) : ∃ b ∈ S, a ∈ b.field_names := by
  induction S with
  | nil => simp [bucketFieldsUnion] at h
  | cons b rest ih =>
      rw [bucketFieldsUnion_cons, Finset.mem_union] at h
      rcases h with h | h
      · exact ⟨b, List.mem_cons_self b rest, h⟩
      · obtain ⟨b2, hb2, ha⟩ := ih h
        exact ⟨b2, List.mem_cons_of_mem b hb2, ha⟩

theorem fields_subset_bucketFieldsUnion {S : List GroupingBucket} {b : GroupingBucket}
    (h : b ∈ S) : b.field_names ⊆ bucketFieldsUnion S := by
  induction S with
  | nil => simp at h
  | cons x rest ih =>
      rw [bucketFieldsUnion_cons]
      rcases List.mem_cons.mp h with rfl | h2
      · exact Finset.subset_union_left
      · exact subset_trans (ih h2) Finset.subset_union_right

theorem extract_subset_unionFields {docs : List PyDict} {d : PyDict} (h : d ∈ docs) :
    extract_field_names d ⊆ unionFieldsOfDocs docs := by
  induction docs with
  | nil => simp at h
  | cons x rest ih =>
      rw [unionFieldsOfDocs_cons]
      rcases List.mem_cons.mp h with rfl | h2
      · exact Finset.subset_union_left
      · exact subset_trans (ih h2) Finset.subset_union_right

theorem jaccard_disjoint_threshold {A B : Finset String} (hd : A ∩ B = ∅)
    (h : FIELD_SIMILARITY_THRESHOLD ≤ jaccard A B) : A = ∅ ∧ B = ∅ := by
  by_cases h1 : A = ∅ ∧ B = ∅
  · exact h1
  · exfalso
    rw [jaccard, if_neg h1] at h
    by_cases h2 : A = ∅ ∨ B = ∅
    · rw [if_pos h2] at h
      norm_num [FIELD_SIMILARITY_THRESHOLD] at h
    · rw [if_neg h2] at h
      by_cases h3 : A ∪ B = ∅
      · rw [Finset.union_eq_empty] at h3
        exact h1 h3
      · rw [if_neg h3, hd, Finset.card_empty, Nat.cast_zero, zero_div] at h
        exact absurd h (by norm_num [FIELD_SIMILARITY_THRESHOLD])

theorem jaccard_eq_zero_unpack {A B : Finset String} (h : jaccard A B = 0) :
    A ∩ B = ∅ ∧ ¬(A = ∅ ∧ B = ∅) := by
  rw [jaccard] at h
  by_cases h1 : A = ∅ ∧ B = ∅
  · rw [if_pos h1] at h
    norm_num at h
  · refine ⟨?_, h1⟩
    rw [if_neg h1] at h
    by_cases h2 : A = ∅ ∨ B = ∅
    · rcases h2 with h2 | h2 <;> simp [h2]
    · rw [if_neg h2] at h
      by_cases h3 : A ∪ B = ∅
      · rw [Finset.union_eq_empty] at h3
        exact absurd h3 h1
      · rw [if_neg h3] at h
        have hu : (0 : ℚ) < ((A ∪ B).card : ℚ) := by
          have hp : 0 < (A ∪ B).card :=
            Finset.card_pos.mpr (Finset.nonempty_iff_ne_empty.mpr h3)
          exact_mod_cast hp
        have hnum : ((A ∩ B).card : ℚ) = 0 := by
          rcases div_eq_zero_iff.mp h with hz | hz
          · exact hz
          · exact absurd hz (ne_of_gt hu)
        have hcard : (A ∩ B).card = 0 := by exact_mod_cast hnum
        exact Finset.card_eq_zero.mp hcard

theorem insertIntoFirstBucket_none_of_incompat {buckets : List GroupingBucket}
    {doc : PyDict} {f l : Finset String}
    (h : ∀ b ∈ buckets, b.is_compatible f l = false) :
    insertIntoFirstBucket buckets doc f l = Option.none := by
  induction buckets with
  | nil => rfl
  | cons b rest ih =>
      simp only [insertIntoFirstBucket]
      rw [if_neg (by simp [h b (List.mem_cons_self b rest)])]
      rw [ih (fun b2 hb2 => h b2 (List.mem_cons_of_mem b hb2))]
      rfl

theorem insertIntoFirstBucket_some_of_compat {buckets : List GroupingBucket}
    {doc : PyDict} {f l : Finset String}
    (h : ∃ b ∈ buckets, b.is_compatible f l = true) :
    ∃ bs, insertIntoFirstBucket buckets doc f l = some bs := by
  induction buckets with
  | nil => simp at h
  | cons b rest ih =>
      simp only [insertIntoFirstBucket]
      by_cases hc : b.is_compatible f l
      · exact ⟨_, by rw [if_pos hc]⟩
      · obtain ⟨b2, hb2, hb2c⟩ := h
        rcases List.mem_cons.mp hb2 with rfl | hb2r
        · exact absurd hb2c (by simpa using hc)
        · obtain ⟨bs2, hbs2⟩ := ih ⟨b2, hb2r, hb2c⟩
          exact ⟨b :: bs2, by rw [if_neg hc, hbs2]; rfl⟩

theorem group_separation_aux (A : Finset String) :
    ∀ (batch : List PyDict) (S : List GroupingBucket),
      S ≠ [] →
      (∀ b ∈ S, b.field_names ⊆ A) →
      A ⊆ bucketFieldsUnion S →
      (∀ d ∈ batch, extract_field_names d ∩ A = ∅) →
      ¬(A = ∅ ∧ unionFieldsOfDocs batch = ∅) →
      batch ≠ [] →
      2 ≤ (batch.foldl stepDoc S).length := by
  intro batch
  induction batch with
  | nil =>
      intro S _ _ _ _ _ hne
      exact absurd rfl hne
  | cons d rest ih =>
      intro S hSne hsub hcover hdisj hnonempty _
      simp only [List.foldl_cons]
      cases hins : insertIntoFirstBucket S d (extract_field_names d) (extract_ner_labels d) with
      | none =>
          have hstep : stepDoc S d = S ++
              [GroupingBucket.add_document
                ⟨bucketId (S.length + 1), [], ∅, ∅⟩ d
                (extract_field_names d) (extract_ner_labels d)] := by
            simp only [stepDoc]
            rw [hins]
          have hmono := foldl_stepDoc_length_mono rest (stepDoc S d)
          have hS1 : 1 ≤ S.length := by
            cases S
            · exact absurd rfl hSne
            · simp
          have hlen : (stepDoc S d).length = S.length + 1 := by
            rw [hstep]
            simp
          omega
      | some bs =>
          have hstep : stepDoc S d = bs := by
            simp only [stepDoc]
            rw [hins]
          obtain ⟨b, hbmem, hbc⟩ := insertIntoFirstBucket_isSome hins
          have hdA := hdisj d (List.mem_cons_self d rest)
          have hbdisj : b.field_names ∩ extract_field_names d = ∅ := by
            ext a
            simp only [Finset.mem_inter, Finset.not_mem_empty, iff_false, not_and]
            intro hab haf
            have haA := hsub b hbmem hab
            have hIn : a ∈ extract_field_names d ∩ A := Finset.mem_inter.mpr ⟨haf, haA⟩
            rw [hdA] at hIn
            simp at hIn
          have hcomp : FIELD_SIMILARITY_THRESHOLD ≤ jaccard b.field_names (extract_field_names d) := by
            simp only [GroupingBucket.is_compatible, Bool.and_eq_true, decide_eq_true_eq] at hbc
            exact hbc.1
          obtain ⟨hbempty, hfempty⟩ := jaccard_disjoint_threshold hbdisj hcomp
          have hmem := insertIntoFirstBucket_mem hins
          have hbslen : bs.length = S.length := insertIntoFirstBucket_length hins
          have hbsne : bs ≠ [] := by
            intro h0
            rw [h0] at hbslen
            cases S
            · exact hSne rfl
            · simp at hbslen
          have hbssub : ∀ x ∈ bs, x.field_names ⊆ A := by
            intro x hx
            rcases hmem x hx with hxS | ⟨y, hyS, hyc, rfl⟩
            · exact hsub x hxS
            · simp only [GroupingBucket.add_document]
              rw [hfempty]
              simpa using hsub y hyS
          have hbscover : A ⊆ bucketFieldsUnion bs := by
            rw [insertIntoFirstBucket_union hins]
            exact subset_trans hcover Finset.subset_union_left
          cases hrest : rest with
          | nil =>
              subst hrest
              simp only [List.foldl_nil]
              rw [hstep]
              have hA : A ≠ ∅ := by
                intro hA0
                apply hnonempty
                refine ⟨hA0, ?_⟩
                rw [unionFieldsOfDocs_cons, hfempty]
                simp [unionFieldsOfDocs]
              obtain ⟨a, ha⟩ := Finset.nonempty_iff_ne_empty.mpr hA
              obtain ⟨b2, hb2mem, hab2⟩ := mem_bucketFieldsUnion (hcover ha)
              have hbne : b ≠ b2 := by
                intro hEq
                rw [← hEq, hbempty] at hab2
                simp at hab2
              have h2 := two_le_length_of_two_mem hbmem hb2mem hbne
              omega
          | cons d2 rest2 =>
              rw [← hrest, hstep]
              refine ih bs hbsne hbssub hbscover ?_ ?_ (by rw [hrest]; simp)
              · intro d3 hd3
                exact hdisj d3 (List.mem_cons_of_mem d hd3)
              · rintro ⟨hA0, hr0⟩
                apply hnonempty
                refine ⟨hA0, ?_⟩
                rw [unionFieldsOfDocs_cons, hfempty, hr0]
                simp

/-- C8: the grouper's step keeps the bucket count when some open bucket
meets both similarity thresholds (the document joins the first such bucket)
and opens a new bucket otherwise; consequently, for every input made of two
non-empty batches whose field-name sets have Jaccard similarity 0, the
grouper produces at least 2 groups. -/
theorem tabular_grouper_disjoint_batches
    (B1 B2 : List PyDict) (h1 : B1 ≠ []) (h2 : B2 ≠ [])
    (hdisj : jaccard (unionFieldsOfDocs B1) (unionFieldsOfDocs B2) = 0) :
    2 ≤ (group_tabular_documents (B1 ++ B2)).length ∧
    (∀ (S : List GroupingBucket) (d : PyDict),
      ((∃ b ∈ S, b.is_compatible (extract_field_names d) (extract_ner_labels d) = true) →
        (stepDoc S d).length = S.length) ∧
      ((∀ b ∈ S, b.is_compatible (extract_field_names d) (extract_ner_labels d) = false) →
        (stepDoc S d).length = S.length + 1)) := by
  constructor
  · obtain ⟨hAB, hne⟩ := jaccard_eq_zero_unpack hdisj
    have happ : B1 ++ B2 ≠ [] := by
      cases B1
      · exact absurd rfl h1
      · simp
    have hgroup : (group_tabular_documents (B1 ++ B2)).length
        = (clusterBuckets (B1 ++ B2)).length := by
      rw [group_tabular_documents, if_neg (by simpa [List.isEmpty_iff] using happ)]
      simp
    rw [hgroup, clusterBuckets, List.foldl_append]
    have hS1len : 1 ≤ (B1.foldl stepDoc []).length := by
      match B1, h1 with
      | d :: rest, _ =>
        simp only [List.foldl_cons]
        have hmono := foldl_stepDoc_length_mono rest (stepDoc [] d)
        have hd1 : (stepDoc [] d).length = 1 := by
          simp [stepDoc, insertIntoFirstBucket]
        omega
    have hS1ne : B1.foldl stepDoc [] ≠ [] := by
      intro h0
      rw [h0] at hS1len
      simp at hS1len
    have hS1union : bucketFieldsUnion (B1.foldl stepDoc []) = unionFieldsOfDocs B1 := by
      rw [foldl_stepDoc_union]
      simp [bucketFieldsUnion]
    refine group_separation_aux (unionFieldsOfDocs B1) B2 (B1.foldl stepDoc [])
      hS1ne ?_ ?_ ?_ hne h2
    · intro b hb
      rw [← hS1union]
      exact fields_subset_bucketFieldsUnion hb
    · rw [hS1union]
    · intro d hd
      ext a
      simp only [Finset.mem_inter, Finset.not_mem_empty, iff_false, not_and]
      intro haf haA
      have haB : a ∈ unionFieldsOfDocs B2 := extract_subset_unionFields hd haf
      have hIn : a ∈ unionFieldsOfDocs B1 ∩ unionFieldsOfDocs B2 :=
        Finset.mem_inter.mpr ⟨haA, haB⟩
      rw [hAB] at hIn
      simp at hIn
  · intro S d
    constructor
    · intro hex
      obtain ⟨bs, hbs⟩ := insertIntoFirstBucket_some_of_compat hex
      simp only [stepDoc]
      rw [hbs]
      exact insertIntoFirstBucket_length hbs
    · intro hall
      simp only [stepDoc]
      rw [insertIntoFirstBucket_none_of_incompat hall]
      simp

/-- Witness for `tabular_grouper_disjoint_batches`: two one-record batches
with disjoint singleton field sets produce at least two tables. -/
theorem tabular_grouper_disjoint_batches_witness :
    2 ≤ (group_tabular_documents
        ([[("a", PyVal.int 1)]] ++ [[("b", PyVal.int 2)]])).length := by
  have hA : unionFieldsOfDocs [[("a", PyVal.int 1)]] = {"a"} := by decide
  have hB : unionFieldsOfDocs [[("b", PyVal.int 2)]] = {"b"} := by decide
  have hj : jaccard (unionFieldsOfDocs [[("a", PyVal.int 1)]])
      (unionFieldsOfDocs [[("b", PyVal.int 2)]]) = 0 := by
    rw [hA, hB, jaccard]
    rw [if_neg (by simp), if_neg (by simp), if_neg (by simp [Finset.union_eq_empty])]
    have hint : ({"a"} : Finset String) ∩ {"b"} = ∅ := by
      rw [Finset.singleton_inter_of_not_mem]
      simp
    rw [hint]
    simp
  exact (tabular_grouper_disjoint_batches [[("a", PyVal.int 1)]] [[("b", PyVal.int 2)]]
    (List.cons_ne_nil _ _) (List.cons_ne_nil _ _) hj).1

/-! ## C9 -/

theorem lookup_isSome_of_mem_keys {β : Type} {l : List (String × β)} {k : String}
    (h : k ∈ l.map Prod.fst) : ∃ v, l.lookup k = some v := by
  induction l with
  | nil => simp at h
  | cons p ps ih =>
      obtain ⟨a, b⟩ := p
      rw [List.lookup_cons]
      by_cases hk : k = a
      · subst hk
        exact ⟨b, by simp⟩
      · have hbeq : (k == a) = false := beq_eq_false_iff_ne.mpr hk
        rw [hbeq]
        refine ih ?_
        rw [List.map_cons] at h
        rcases List.mem_cons.mp h with h1 | h1
        · exact absurd h1 hk
        · exact h1

theorem lookup_of_mem_nodup {β : Type} {l : List (String × β)} {k : String} {v : β}
    (hnodup : (l.map Prod.fst).Nodup) (hmem : (k, v) ∈ l) : l.lookup k = some v := by
  induction l with
  | nil => simp at hmem
  | cons p ps ih =>
      obtain ⟨a, b⟩ := p
      rw [List.map_cons, List.nodup_cons] at hnodup
      rw [List.lookup_cons]
      rcases List.mem_cons.mp hmem with heq | hmem2
      · have ha : a = k := by
          have := congrArg Prod.fst heq.symm
          simpa using this
        have hb : b = v := by
          have := congrArg Prod.snd heq.symm
          simpa using this
        subst ha
        subst hb
        simp
      · by_cases hk : k = a
        · subst hk
          exact absurd (List.mem_map.mpr ⟨(k, v), hmem2, rfl⟩) hnodup.1
        · have hbeq : (k == a) = false := beq_eq_false_iff_ne.mpr hk
          rw [hbeq]
          exact ih hnodup.2 hmem2

theorem lookup_beq_false {β : Type} {n a : String} (h : (n == a) = false) (b : β)
    (ps : List (String × β)) : ((a, b) :: ps).lookup n = ps.lookup n := by
  rw [List.lookup_cons, h]

theorem lookup_beq_true {β : Type} (a : String) (b : β) (ps : List (String × β)) :
    ((a, b) :: ps).lookup a = some b := by
  rw [List.lookup_cons, beq_self_eq_true]

theorem lookup_map_modify {k n : String} (g : FieldInfo → FieldInfo) :
    ∀ fi : List (String × FieldInfo),
      (fi.map (fun p => if p.1 = k then (p.1, g p.2) else p)).lookup n =
        if n = k then (fi.lookup k).map g else fi.lookup n := by
  intro fi
  induction fi with
  | nil => by_cases h : n = k <;> simp [h]
  | cons p ps ih =>
      obtain ⟨a, b⟩ := p
      rw [List.map_cons]
      by_cases hak : a = k
      · subst hak
        have hhead :
            (if ((a, b) : String × FieldInfo).1 = a then (((a, b) : String × FieldInfo).1, g b)
              else ((a, b) : String × FieldInfo)) = (a, g b) := by
          simp
        rw [hhead]
        by_cases hna : n = a
        · subst hna
          rw [lookup_beq_true, if_pos rfl, lookup_beq_true]
          simp
        · have hb : (n == a) = false := beq_eq_false_iff_ne.mpr hna
          rw [if_neg hna, lookup_beq_false hb, lookup_beq_false hb, ih, if_neg hna]
      · have hhead :
            (if ((a, b) : String × FieldInfo).1 = k then (((a, b) : String × FieldInfo).1, g b)
              else ((a, b) : String × FieldInfo)) = (a, b) := by
          simp [hak]
        rw [hhead]
        by_cases hna : n = a
        · subst hna
          rw [if_neg (fun h => hak (h.symm : k = n).symm), lookup_beq_true, lookup_beq_true]
        · have hb : (n == a) = false := beq_eq_false_iff_ne.mpr hna
          rw [lookup_beq_false hb, ih]
          by_cases hnk : n = k
          · subst hnk
            rw [if_pos rfl, if_pos rfl, lookup_beq_false hb]
          · rw [if_neg hnk, if_neg hnk, lookup_beq_false hb]

theorem lookup_append_single {k n : String} {info : FieldInfo} :
    ∀ fi : List (String × FieldInfo),
      (fi ++ [(k, info)]).lookup n =
        match fi.lookup n with
        | some v => some v
        | Option.none => if n = k then some info else Option.none := by
  intro fi
  induction fi with
  | nil =>
      rw [List.nil_append, List.lookup_nil]
      by_cases h : n = k
      · subst h
        rw [lookup_beq_true]
        simp
      · have hb : (n == k) = false := beq_eq_false_iff_ne.mpr h
        rw [lookup_beq_false hb, List.lookup_nil]
        simp [h]
  | cons p ps ih =>
      obtain ⟨a, b⟩ := p
      rw [List.cons_append]
      by_cases hna : n = a
      · subst hna
        rw [lookup_beq_true, lookup_beq_true]
      · have hb : (n == a) = false := beq_eq_false_iff_ne.mpr hna
        rw [lookup_beq_false hb, lookup_beq_false hb, ih]

theorem typesAt_recordEntry (fi : List (String × FieldInfo)) (k : String) (v : PyVal)
    (n : String) :
    typesAt (recordEntry fi k v) n =
      if allowedColumn k ∧ k = n then insert (map_python_type v) (typesAt fi n)
      else typesAt fi n := by
  by_cases ha : allowedColumn k
  · cases hl : fi.lookup k with
    | some info =>
        have hre : recordEntry fi k v =
            fi.map (fun p => if p.1 = k then (p.1, updateFieldInfo p.2 v) else p) := by
          rw [recordEntry, if_pos ha, hl]
        rw [hre]
        by_cases hkn : k = n
        · subst hkn
          rw [if_pos ⟨ha, rfl⟩]
          have h1 := @lookup_map_modify k k (fun i => updateFieldInfo i v) fi
          rw [if_pos rfl, hl] at h1
          simp only [Option.map_some'] at h1
          simp only [typesAt, h1, hl]
          simp [updateFieldInfo]
        · rw [if_neg (fun hc => hkn hc.2)]
          have h1 := @lookup_map_modify k n (fun i => updateFieldInfo i v) fi
          rw [if_neg (fun hc : n = k => hkn hc.symm)] at h1
          simp only [typesAt, h1]
    | none =>
        have hre : recordEntry fi k v =
            fi ++ [(k, updateFieldInfo ⟨Option.none, ∅, 0, false⟩ v)] := by
          rw [recordEntry, if_pos ha, hl]
        rw [hre]
        by_cases hkn : k = n
        · subst hkn
          rw [if_pos ⟨ha, rfl⟩]
          have h1 : (fi ++ [(k, updateFieldInfo ⟨Option.none, ∅, 0, false⟩ v)]).lookup k
              = some (updateFieldInfo ⟨Option.none, ∅, 0, false⟩ v) := by
            rw [lookup_append_single, hl]
            simp
          simp only [typesAt, h1, hl]
          simp [updateFieldInfo]
        · rw [if_neg (fun hc => hkn hc.2)]
          have h1 : (fi ++ [(k, updateFieldInfo ⟨Option.none, ∅, 0, false⟩ v)]).lookup n
              = fi.lookup n := by
            rw [lookup_append_single]
            cases hn : fi.lookup n with
            | some i => rfl
            | none => rw [if_neg (fun hc : n = k => hkn hc.symm)]
          simp only [typesAt, h1]
  · have hre : recordEntry fi k v = fi := by
      rw [recordEntry, if_neg ha]
    rw [hre, if_neg (fun hc => ha hc.1)]

theorem infoKeys_recordEntry_some {fi : List (String × FieldInfo)} {k : String}
    (v : PyVal) {info : FieldInfo}
    (ha : allowedColumn k = true) (hl : fi.lookup k = some info) :
    infoKeys (recordEntry fi k v) = infoKeys fi := by
  have hre : recordEntry fi k v =
      fi.map (fun p => if p.1 = k then (p.1, updateFieldInfo p.2 v) else p) := by
    rw [recordEntry, if_pos ha, hl]
  rw [hre]
  simp only [infoKeys, List.map_map]
  refine List.map_congr_left ?_
  intro p hp
  by_cases hpk : p.1 = k <;> simp [hpk]

theorem infoKeys_recordEntry_none {fi : List (String × FieldInfo)} {k : String}
    (v : PyVal) (ha : allowedColumn k = true) (hl : fi.lookup k = Option.none) :
    infoKeys (recordEntry fi k v) = infoKeys fi ++ [k] := by
  have hre : recordEntry fi k v =
      fi ++ [(k, updateFieldInfo ⟨Option.none, ∅, 0, false⟩ v)] := by
    rw [recordEntry, if_pos ha, hl]
  rw [hre]
  simp [infoKeys]

theorem infoKeys_recordEntry_skip {fi : List (String × FieldInfo)} {k : String}
    (v : PyVal) (ha : allowedColumn k = false) :
    infoKeys (recordEntry fi k v) = infoKeys fi := by
  have hre : recordEntry fi k v = fi := by
    rw [recordEntry, if_neg (by simp [ha])]
  rw [hre]

theorem entryTypes_cons_pos {kv : String × PyVal} {rest : List (String × PyVal)}
    {n : String} (hc : allowedColumn kv.1 = true ∧ kv.1 = n) :
    entryTypes (kv :: rest) n = insert (map_python_type kv.2) (entryTypes rest n) := by
  rw [entryTypes, entryTypes, List.filter_cons,
    if_pos (by simp only [hc.1, Bool.true_and, decide_eq_true_eq]; exact hc.2)]
  simp

theorem entryTypes_cons_neg {kv : String × PyVal} {rest : List (String × PyVal)}
    {n : String} (hc : ¬(allowedColumn kv.1 = true ∧ kv.1 = n)) :
    entryTypes (kv :: rest) n = entryTypes rest n := by
  rw [entryTypes, entryTypes, List.filter_cons,
    if_neg (by simpa [Bool.and_eq_true] using hc)]

theorem typesAt_foldflat (es : List (String × PyVal)) :
    ∀ (fi : List (String × FieldInfo)) (n : String),
      typesAt (es.foldl (fun a kv => recordEntry a kv.1 kv.2) fi) n =
        typesAt fi n ∪ entryTypes es n := by
  induction es with
  | nil =>
      intro fi n
      simp [entryTypes]
  | cons kv rest ih =>
      intro fi n
      rw [List.foldl_cons, ih, typesAt_recordEntry]
      by_cases hc : allowedColumn kv.1 = true ∧ kv.1 = n
      · rw [if_pos hc, entryTypes_cons_pos hc]
        ext a
        simp only [Finset.mem_union, Finset.mem_insert]
        tauto
      · rw [if_neg hc, entryTypes_cons_neg hc]

theorem entryKeys_cons_pos {kv : String × PyVal} {rest : List (String × PyVal)}
    (hc : allowedColumn kv.1 = true) :
    entryKeys (kv :: rest) = insert kv.1 (entryKeys rest) := by
  rw [entryKeys, entryKeys, List.filter_cons, if_pos hc]
  simp

theorem entryKeys_cons_neg {kv : String × PyVal} {rest : List (String × PyVal)}
    (hc : allowedColumn kv.1 = false) :
    entryKeys (kv :: rest) = entryKeys rest := by
  rw [entryKeys, entryKeys, List.filter_cons, if_neg (by simp [hc])]

theorem infoKeys_foldflat (es : List (String × PyVal)) :
    ∀ fi : List (String × FieldInfo),
      (infoKeys fi).Nodup →
      (infoKeys (es.foldl (fun a kv => recordEntry a kv.1 kv.2) fi)).Nodup ∧
      (infoKeys (es.foldl (fun a kv => recordEntry a kv.1 kv.2) fi)).toFinset =
        (infoKeys fi).toFinset ∪ entryKeys es := by
  induction es with
  | nil =>
      intro fi h
      refine ⟨h, ?_⟩
      simp [entryKeys]
  | cons kv rest ih =>
      intro fi h
      rw [List.foldl_cons]
      by_cases hal : allowedColumn kv.1
      · cases hl : fi.lookup kv.1 with
        | some info =>
            have hstep := infoKeys_recordEntry_some kv.2 hal hl
            obtain ⟨hnd, hset⟩ := ih _ (by rw [hstep]; exact h)
            refine ⟨hnd, ?_⟩
            rw [hset, hstep, entryKeys_cons_pos hal]
            have hmemk : kv.1 ∈ infoKeys fi := lookup_isSome_mem_keys hl
            ext a
            simp only [Finset.mem_union, Finset.mem_insert, List.mem_toFinset]
            constructor
            · rintro (h1 | h1)
              · exact Or.inl h1
              · exact Or.inr (Or.inr h1)
            · rintro (h1 | rfl | h1)
              · exact Or.inl h1
              · exact Or.inl hmemk
              · exact Or.inr h1
        | none =>
            have hstep := infoKeys_recordEntry_none kv.2 hal hl
            have hknotmem : kv.1 ∉ infoKeys fi := by
              intro hm
              obtain ⟨w, hw⟩ := lookup_isSome_of_mem_keys hm
              rw [hl] at hw
              simp at hw
            have hnew : (infoKeys (recordEntry fi kv.1 kv.2)).Nodup := by
              rw [hstep]
              rw [List.nodup_append]
              exact ⟨h, by simp, by simpa using hknotmem⟩
            obtain ⟨hnd, hset⟩ := ih _ hnew
            refine ⟨hnd, ?_⟩
            rw [hset, hstep, entryKeys_cons_pos hal]
            ext a
            simp only [Finset.mem_union, Finset.mem_insert, List.mem_toFinset,
              List.mem_append, List.mem_singleton]
            tauto
      · have hstep := @infoKeys_recordEntry_skip fi kv.1 kv.2 (by simpa using hal)
        obtain ⟨hnd, hset⟩ := ih _ (by rw [hstep]; exact h)
        refine ⟨hnd, ?_⟩
        rw [hset, hstep, entryKeys_cons_neg (by simpa using hal)]

theorem fieldInfoOf_eq_flat (documents : List PyDict) :
    fieldInfoOf documents =
      (allEntries documents).foldl (fun a kv => recordEntry a kv.1 kv.2) [] := by
  rw [fieldInfoOf, allEntries]
  have key : ∀ (ds : List PyDict) (init : List (String × FieldInfo)),
      ds.foldl (fun acc doc => doc.foldl (fun a kv => recordEntry a kv.1 kv.2) acc) init =
        (ds.flatMap id).foldl (fun a kv => recordEntry a kv.1 kv.2) init := by
    intro ds
    induction ds with
    | nil => intro init; simp
    | cons d rest ih =>
        intro init
        rw [List.foldl_cons, List.flatMap_cons, List.foldl_append, ih]
        rfl
  exact key documents []

theorem fieldInfoOf_keys_nodup (documents : List PyDict) :
    (infoKeys (fieldInfoOf documents)).Nodup := by
  rw [fieldInfoOf_eq_flat]
  exact (infoKeys_foldflat (allEntries documents) [] (by simp [infoKeys])).1

theorem fieldInfoOf_keySet (documents : List PyDict) :
    (infoKeys (fieldInfoOf documents)).toFinset = docsKeySet documents := by
  rw [fieldInfoOf_eq_flat]
  have h := (infoKeys_foldflat (allEntries documents) [] (by simp [infoKeys])).2
  rw [h]
  simp only [infoKeys, List.map_nil, List.toFinset_nil, Finset.empty_union]
  rfl

theorem fieldInfoOf_typesAt (documents : List PyDict) (n : String) :
    typesAt (fieldInfoOf documents) n = docsTypeSet documents n := by
  rw [fieldInfoOf_eq_flat, typesAt_foldflat]
  have h0 : typesAt [] n = ∅ := rfl
  rw [h0, Finset.empty_union]
  rfl

theorem sorted_pairs_unique {l₁ l₂ : List (String × String)}
    (hp : l₁.Perm l₂)
    (hs₁ : l₁.Sorted (fun a b => a.1 ≤ b.1)) (hs₂ : l₂.Sorted (fun a b => a.1 ≤ b.1))
    (hn : (l₁.map Prod.fst).Nodup) : l₁ = l₂ := by
  have hanti : IsAntisymm (String × String) (fun a b => a.1 < b.1) :=
    ⟨fun a b h1 h2 => absurd (h1.trans h2) (lt_irrefl _)⟩
  have hn₂ : (l₂.map Prod.fst).Nodup := ((hp.map Prod.fst).nodup_iff).mp hn
  have hne₁ : l₁.Pairwise (fun a b => a.1 ≠ b.1) := by
    rw [List.Nodup, List.pairwise_map] at hn
    exact hn
  have hne₂ : l₂.Pairwise (fun a b => a.1 ≠ b.1) := by
    rw [List.Nodup, List.pairwise_map] at hn₂
    exact hn₂
  refine @List.eq_of_perm_of_sorted (String × String) (fun a b => a.1 < b.1) hanti l₁ l₂
    hp ?_ ?_
  · exact (hs₁.and hne₁).imp (fun hab => lt_of_le_of_ne hab.1 hab.2)
  · exact (hs₂.and hne₂).imp (fun hab => lt_of_le_of_ne hab.1 hab.2)

theorem sorted_mergeSort_schemaField (l : List SchemaField) :
    (l.mergeSort (fun a b => decide (a.name ≤ b.name))).Pairwise
      (fun a b => a.name ≤ b.name) := by
  have htrans : ∀ a b c : SchemaField,
      (fun a b : SchemaField => decide (a.name ≤ b.name)) a b = true →
      (fun a b : SchemaField => decide (a.name ≤ b.name)) b c = true →
      (fun a b : SchemaField => decide (a.name ≤ b.name)) a c = true := by
    intro a b c hab hbc
    simp only [decide_eq_true_eq] at hab hbc ⊢
    exact hab.trans hbc
  have htotal : ∀ a b : SchemaField,
      ((fun a b : SchemaField => decide (a.name ≤ b.name)) a b ||
        (fun a b : SchemaField => decide (a.name ≤ b.name)) b a) = true := by
    intro a b
    simp only [Bool.or_eq_true, decide_eq_true_eq]
    exact le_total a.name b.name
  have h := List.sorted_mergeSort htrans htotal l
  exact h.imp (fun hab => of_decide_eq_true hab)

theorem mergeSort_schemaField_sortedB (l : List SchemaField) :
    (l.mergeSort (fun a b => decide (a.name ≤ b.name))).Pairwise
      (fun a b => (fun a b : SchemaField => decide (a.name ≤ b.name)) a b = true) := by
  refine List.sorted_mergeSort ?_ ?_ l
  · intro a b c hab hbc
    simp only [decide_eq_true_eq] at hab hbc ⊢
    exact hab.trans hbc
  · intro a b
    simp only [Bool.or_eq_true, decide_eq_true_eq]
    exact le_total a.name b.name

theorem tokens_of_fields (l : List SchemaField) :
    l.flatMap (fun f => [f.name, f.type]) =
      (l.map (fun f => (f.name, f.type))).flatMap (fun p => [p.1, p.2]) := by
  induction l with
  | nil => rfl
  | cons f fs ih => simp [List.flatMap_cons, ih]

theorem tokens_of_names (l : List String) (g : String → String) :
    l.flatMap (fun n => [n, g n]) =
      (l.map (fun n => (n, g n))).flatMap (fun p => [p.1, p.2]) := by
  induction l with
  | nil => rfl
  | cons n ns ih => simp [List.flatMap_cons, ih]

theorem build_signature_canonical (documents : List PyDict) (nerLabels : Finset String) :
    build_signature (infer_schema_fields documents) nerLabels =
      canonicalSignature documents nerLabels := by
  have hisf : infer_schema_fields documents =
      (fieldsUnsorted documents).mergeSort (fun a b => decide (a.name ≤ b.name)) := rfl
  have hg : ∀ p ∈ fieldInfoOf documents,
      select_type p.2.types = select_type (docsTypeSet documents p.1) := by
    intro p hp
    have hnd : ((fieldInfoOf documents).map Prod.fst).Nodup :=
      fieldInfoOf_keys_nodup documents
    have hlook : (fieldInfoOf documents).lookup p.1 = some p.2 :=
      lookup_of_mem_nodup hnd (by simpa using hp)
    have ht : typesAt (fieldInfoOf documents) p.1 = p.2.types := by
      simp only [typesAt, hlook]
    rw [← ht, fieldInfoOf_typesAt]
  have hpairs : (infer_schema_fields documents).map (fun f => (f.name, f.type)) =
      ((docsKeySet documents).sort (· ≤ ·)).map
        (fun n => (n, select_type (docsTypeSet documents n))) := by
    refine sorted_pairs_unique ?_ ?_ ?_ ?_
    · have h1 : ((infer_schema_fields documents).map (fun f => (f.name, f.type))).Perm
          ((fieldsUnsorted documents).map (fun f => (f.name, f.type))) := by
        rw [hisf]
        exact (List.mergeSort_perm _ _).map _
      have h2 : (fieldsUnsorted documents).map (fun f => (f.name, f.type)) =
          (fieldInfoOf documents).map
            (fun p => (p.1, select_type (docsTypeSet documents p.1))) := by
        rw [fieldsUnsorted, List.map_map]
        refine List.map_congr_left ?_
        intro p hp
        show (p.1, select_type p.2.types) = (p.1, select_type (docsTypeSet documents p.1))
        rw [hg p hp]
      have h3 : (fieldInfoOf documents).map
            (fun p => (p.1, select_type (docsTypeSet documents p.1))) =
          (infoKeys (fieldInfoOf documents)).map
            (fun n => (n, select_type (docsTypeSet documents n))) := by
        rw [infoKeys, List.map_map]
        exact List.map_congr_left fun p hp => rfl
      have h4 : ((infoKeys (fieldInfoOf documents)).map
            (fun n => (n, select_type (docsTypeSet documents n)))).Perm
          (((docsKeySet documents).sort (· ≤ ·)).map
            (fun n => (n, select_type (docsTypeSet documents n)))) := by
        refine List.Perm.map _ ?_
        refine List.perm_of_nodup_nodup_toFinset_eq (fieldInfoOf_keys_nodup documents)
          (Finset.sort_nodup _ _) ?_
        rw [fieldInfoOf_keySet, Finset.sort_toFinset]
      have h5 : ((fieldsUnsorted documents).map (fun f => (f.name, f.type))).Perm
          (((docsKeySet documents).sort (· ≤ ·)).map
            (fun n => (n, select_type (docsTypeSet documents n)))) := by
        rw [h2, h3]
        exact h4
      exact h1.trans h5
    · rw [hisf]
      exact List.pairwise_map.mpr (sorted_mergeSort_schemaField (fieldsUnsorted documents))
    · exact List.pairwise_map.mpr (Finset.sort_sorted (· ≤ ·) (docsKeySet documents))
    · have h1 : ((infer_schema_fields documents).map (fun f => (f.name, f.type))).map Prod.fst
          = (infer_schema_fields documents).map (fun f => f.name) := by
        rw [List.map_map]
        exact List.map_congr_left fun f hf => rfl
      rw [h1]
      have h2 : ((infer_schema_fields documents).map (fun f => f.name)).Perm
          ((fieldsUnsorted documents).map (fun f => f.name)) := by
        rw [hisf]
        exact (List.mergeSort_perm _ _).map _
      have h3 : (fieldsUnsorted documents).map (fun f => f.name)
          = infoKeys (fieldInfoOf documents) := by
        rw [fieldsUnsorted, List.map_map, infoKeys]
        exact List.map_congr_left fun p hp => rfl
      rw [h2.nodup_iff, h3]
      exact fieldInfoOf_keys_nodup documents
  have hidem : (infer_schema_fields documents).mergeSort
      (fun a b => decide (a.name ≤ b.name)) = infer_schema_fields documents := by
    rw [hisf]
    exact List.mergeSort_of_sorted (mergeSort_schemaField_sortedB _)
  rw [build_signature, canonicalSignature, hidem, tokens_of_fields, tokens_of_names, hpairs]

theorem flatMap_id_perm_of_forall₂ {α : Type} {l₁ l₂ : List (List α)}
    (h : List.Forall₂ List.Perm l₁ l₂) : (l₁.flatMap id).Perm (l₂.flatMap id) := by
  induction h with
  | nil => simp
  | cons h₁ h₂ ih => simpa using h₁.append ih

theorem allEntries_perm {docs₁ docs₂ docs₃ : List PyDict}
    (hperm : docs₁.Perm docs₂) (hfields : List.Forall₂ List.Perm docs₂ docs₃) :
    (allEntries docs₁).Perm (allEntries docs₃) :=
  (hperm.flatMap_right id).trans (flatMap_id_perm_of_forall₂ hfields)

theorem docsKeySet_perm {docs₁ docs₃ : List PyDict}
    (h : (allEntries docs₁).Perm (allEntries docs₃)) :
    docsKeySet docs₁ = docsKeySet docs₃ := by
  unfold docsKeySet
  exact perm_toFinset ((h.filter _).map _)

theorem docsTypeSet_perm {docs₁ docs₃ : List PyDict}
    (h : (allEntries docs₁).Perm (allEntries docs₃)) (n : String) :
    docsTypeSet docs₁ n = docsTypeSet docs₃ n := by
  unfold docsTypeSet
  exact perm_toFinset ((h.filter _).map _)

/-- C9: For every record batch, reordering the records of the batch
(`docs₁` to `docs₂`) and then reordering the fields within each record
(`docs₂` to `docs₃`, a pointwise permutation) leaves the structural
signature computed by `_build_signature` over `_infer_schema_fields`
unchanged. -/
theorem signature_order_independence (docs₁ docs₂ docs₃ : List PyDict)
    (nerLabels : Finset String)
    (hperm : docs₁.Perm docs₂) (hfields : List.Forall₂ List.Perm docs₂ docs₃) :
    build_signature (infer_schema_fields docs₁) nerLabels =
      build_signature (infer_schema_fields docs₃) nerLabels := by
  have h := allEntries_perm hperm hfields
  have hfun : (fun n => [n, select_type (docsTypeSet docs₁ n)])
      = (fun n => [n, select_type (docsTypeSet docs₃ n)]) :=
    funext fun n => by rw [docsTypeSet_perm h n]
  rw [build_signature_canonical, build_signature_canonical]
  simp only [canonicalSignature]
  rw [docsKeySet_perm h, hfun]

theorem signature_order_independence_witness :
    build_signature (infer_schema_fields
        [[("a", PyVal.int 1), ("b", PyVal.str "x")], [("c", PyVal.bool true)]]) ∅ =
      build_signature (infer_schema_fields
        [[("c", PyVal.bool true)], [("b", PyVal.str "x"), ("a", PyVal.int 1)]]) ∅ :=
  signature_order_independence
    [[("a", PyVal.int 1), ("b", PyVal.str "x")], [("c", PyVal.bool true)]]
    [[("c", PyVal.bool true)], [("a", PyVal.int 1), ("b", PyVal.str "x")]]
    [[("c", PyVal.bool true)], [("b", PyVal.str "x"), ("a", PyVal.int 1)]]
    ∅
    (List.Perm.swap _ _ _)
    (List.Forall₂.cons (List.Perm.refl _)
      (List.Forall₂.cons (List.Perm.swap _ _ _) List.Forall₂.nil))
